import Mathlib

/-!
Verification of the gtc-ansible bootstrap wizard against its design document.

Text is modelled as `List Char` (`Str`), with Python string operations
(`split`, `strip`, `splitlines`, `int(...)`, `str.split()`) re-implemented
faithfully for the ASCII fragment the program manipulates.  External effects
(subprocess execution, HTTP, the state file) are modelled as explicit inputs:
a subprocess run is an `ExecOutcome`, an HTTP call is an `HttpOutcome`, and
the state file is an `Option Str` (its contents when it exists).
-/

/-- Python strings, modelled as lists of characters. -/
abbrev Str := List Char

/-- The whitespace characters recognised by Python's `str.strip()` /
`str.split()` for the ASCII fragment. -/
def pyIsSpace (c : Char) : Bool :=
  c = ' ' || c = '\t' || c = '\n' || c = '\r' || c = '\x0b' || c = '\x0c'

/-- Python `str.strip()`: drop whitespace from both ends. -/
def pyStrip (s : Str) : Str :=
  ((s.dropWhile pyIsSpace).reverse.dropWhile pyIsSpace).reverse

/-- Python `str.split(sep)` for a one-character separator: split at every
occurrence, keeping empty pieces (so the result is never `[]`). -/
def pySplit (sep : Char) : Str → List Str
  | [] => [[]]
  | c :: rest =>
    if c = sep then [] :: pySplit sep rest
    else
      match pySplit sep rest with
      | [] => [[c]]
      | s :: ss => (c :: s) :: ss

/-- Python `str.splitlines()` restricted to the `\n`, `\r\n` and `\r`
terminators: lines without their terminators, no trailing empty line. -/
def pySplitlines : Str → List Str
  | [] => []
  | '\n' :: rest => [] :: pySplitlines rest
  | '\r' :: '\n' :: rest => [] :: pySplitlines rest
  | '\r' :: rest => [] :: pySplitlines rest
  | c :: rest =>
    match pySplitlines rest with
    | [] => [[c]]
    | l :: ls => (c :: l) :: ls

/-- Helper of `pySplitWs`: `acc` is the current token, reversed. -/
def pySplitWsAux : Str → Str → List Str
  | acc, [] => if acc = [] then [] else [acc.reverse]
  | acc, c :: rest =>
    if pyIsSpace c then
      if acc = [] then pySplitWsAux [] rest
      else acc.reverse :: pySplitWsAux [] rest
    else pySplitWsAux (c :: acc) rest

/-- Python `str.split()` with no argument: split on whitespace runs,
producing no empty tokens. -/
def pySplitWs (s : Str) : List Str := pySplitWsAux [] s

/-- Digit run of a Python integer literal, after the first digit: single
underscores are allowed between digits only. `acc` is the value so far. -/
def pyDigitsAux : Nat → Str → Option Nat
  | acc, [] => some acc
  | acc, '_' :: c :: rest =>
    if c.isDigit then pyDigitsAux (acc * 10 + (c.toNat - 48)) rest else none
  | acc, c :: rest =>
    if c.isDigit then pyDigitsAux (acc * 10 + (c.toNat - 48)) rest else none

/-- Nonempty digit run of a Python integer literal (ASCII digits). -/
def pyDigits : Str → Option Nat
  | [] => none
  | c :: rest => if c.isDigit then pyDigitsAux (c.toNat - 48) rest else none

/-- Python `int(s)` on a string (ASCII fragment): strips whitespace, allows
one optional sign, then a digit run; `none` models the raised `ValueError`. -/
def pyInt (s : Str) : Option Int :=
  match pyStrip s with
  | '+' :: rest => (pyDigits rest).map (fun n => (n : Int))
  | '-' :: rest => (pyDigits rest).map (fun n => -(n : Int))
  | rest => (pyDigits rest).map (fun n => (n : Int))

/-- `strStarts s p`: Python `s.startswith(p)`. -/
def strStarts : Str → Str → Bool
  | _, [] => true
  | [], _ :: _ => false
  | c :: cs, p :: ps => c = p && strStarts cs ps

/-- `strContains hay needle`: Python `needle in hay`. -/
def strContains : Str → Str → Bool
  | [], needle => needle.isEmpty
  | h :: t, needle => strStarts (h :: t) needle || strContains t needle

/-- Python `str.lower()` for the ASCII fragment. -/
def pyLower (s : Str) : Str := s.map Char.toLower

/-- Python `a or b` on strings: `b` when `a` is empty, else `a`. -/
def pyOrStr (a b : Str) : Str := if a = [] then b else a

/-- Stable insertion used by `pySort`: `x` is placed before the first element
`b` it does not strictly exceed, matching the stable order of Python's
`list.sort`. -/
def pyInsert (le : α → α → Bool) (x : α) : List α → List α
  | [] => [x]
  | b :: bs => if le b x && !le x b then b :: pyInsert le x bs else x :: b :: bs

/-- Python's `list.sort(key=...)` as a stable sort with respect to the total
boolean preorder `le`.  Any two stable sorts for the same preorder agree, so
this is a faithful model of Timsort's result. -/
def pySort (le : α → α → Bool) : List α → List α
  | [] => []
  | x :: xs => pyInsert le x (pySort le xs)

/-- Outcome of running one external command: either the process completed
with an exit code and raw output streams, or the timeout expired. -/
inductive ExecOutcome where
  | completed (rc : Int) (stdout stderr : Str)
  | timedOut
deriving DecidableEq

namespace Nmcli

/-- `bootstrap/utils/nmcli_utils.py`, `_run`: returns
`(proc.returncode, stdout.decode().strip(), stderr.decode().strip())`, and on
`asyncio.TimeoutError` kills the process and returns `(1, "", "Timeout")`.
Process killing is an external effect outside the embedding; the function is
total, modelling that it never raises. -/
def runCmd : ExecOutcome → Int × Str × Str
  | .completed rc out err => (rc, pyStrip out, pyStrip err)
  | .timedOut => (1, [], ('T' :: 'i' :: 'm' :: 'e' :: 'o' :: 'u' :: 't' :: []))

/-- One parsed network record of `scan_networks`. -/
structure NmNet where
  ssid : Str
  signal : Int
deriving DecidableEq

/-- Loop body of `scan_networks` over the lines of stdout:
`ssid, sig = (line.split(":") + ["0"])[:2]`, then records are appended for
nonempty `ssid` with `int(sig)`; a `ValueError` from `int` aborts the whole
call (modelled by `none`). -/
def scanLines : List Str → Option (List NmNet)
  | [] => some []
  | line :: ls =>
    let parts := pySplit ':' line
    let ssid := parts.headD []
    let sig := (parts.drop 1).headD ['0']
    if ssid = [] then scanLines ls
    else
      match pyInt sig with
      | none => none
      | some n => (scanLines ls).map (fun nets => ⟨ssid, n⟩ :: nets)

/-- `bootstrap/utils/nmcli_utils.py`, `scan_networks`: parses the stripped
stdout of the scan command line by line; the exit code is not inspected.
`none` models an uncaught `ValueError` raised by `int(sig)`. -/
def scan_networks (o : ExecOutcome) : Option (List NmNet) :=
  scanLines (pySplitlines (runCmd o).2.1)

/-- The single command built by `connect_network`:
`["sudo", "nmcli", "device", "wifi", "connect", ssid]`, with
`["password", password]` appended when the password is nonempty. -/
def connectCmd (ssid password : Str) : List Str :=
  [('s' :: 'u' :: 'd' :: 'o' :: []),
   ('n' :: 'm' :: 'c' :: 'l' :: 'i' :: []),
   ('d' :: 'e' :: 'v' :: 'i' :: 'c' :: 'e' :: []),
   ('w' :: 'i' :: 'f' :: 'i' :: []),
   ('c' :: 'o' :: 'n' :: 'n' :: 'e' :: 'c' :: 't' :: []), ssid] ++
  (if password = [] then [] else [('p' :: 'a' :: 's' :: 's' :: 'w' :: 'o' :: 'r' :: 'd' :: []), password])

/-- `bootstrap/utils/nmcli_utils.py`, `connect_network`: runs the direct
connect command with a 30 second timeout and returns
`(rc == 0, out if ok else err)`.  The environment is an oracle `exec` from
command and timeout to the process outcome; the second component of the
result is the list of commands issued, in order. -/
def connect_network (exec : List Str → Nat → ExecOutcome) (ssid password : Str) :
    (Bool × Str) × List (List Str) :=
  let cmd := connectCmd ssid password
  let r := runCmd (exec cmd 30)
  ((r.1 = 0, if r.1 = 0 then r.2.1 else r.2.2), [cmd])

/-- `bootstrap/utils/nmcli_utils.py`, `get_connectivity`: true when the exit
code is zero and the stripped stdout contains `"full"` case-insensitively. -/
def get_connectivity (o : ExecOutcome) : Bool :=
  let r := runCmd o
  if r.1 = 0 then strContains (pyLower r.2.1) ('f' :: 'u' :: 'l' :: 'l' :: []) else false

/-- One octet of a dotted-quad IPv4 literal, per Python's `ipaddress` rules:
all ASCII digits, value at most 255, no leading zero. -/
def parseOctet (s : Str) : Option Nat :=
  match s with
  | [] => none
  | c :: rest =>
    if (c :: rest).all Char.isDigit then
      if c = '0' && rest ≠ [] then none
      else
        let v := (c :: rest).foldl (fun acc d => acc * 10 + (d.toNat - 48)) 0
        if v ≤ 255 then some v else none
    else none

/-- Python `ipaddress.ip_address` restricted to IPv4 dotted-quad literals;
IPv6 literals are outside the modelled scope (the spec scopes this component
to IPv4 addresses). `none` models the raised `ValueError`. -/
def parseIPv4 (s : Str) : Option (Nat × Nat × Nat × Nat) :=
  match (pySplit '.' s).map parseOctet with
  | [some a, some b, some c, some d] => some (a, b, c, d)
  | _ => none

/-- `IPv4Address.is_private` from Python's `ipaddress` module: membership in
the IANA private-use registry networks. -/
def ipv4IsPrivate (ip : Nat × Nat × Nat × Nat) : Bool :=
  let (a, b, c, d) := ip
  a = 0 || a = 10 || a = 127 ||
  (a = 169 && b = 254) ||
  (a = 172 && 16 ≤ b && b ≤ 31) ||
  (a = 192 && b = 0 && c = 0 && d ≤ 7) ||
  (a = 192 && b = 0 && c = 0 && (d = 170 || d = 171)) ||
  (a = 192 && b = 0 && c = 2) ||
  (a = 192 && b = 168) ||
  (a = 198 && (b = 18 || b = 19)) ||
  (a = 198 && b = 51 && c = 100) ||
  (a = 203 && b = 0 && c = 113) ||
  (240 ≤ a)

/-- The loop test of `get_ip_address`: `ipaddress.ip_address(ip).is_private`,
with a parse failure (`ValueError`) making the loop `continue`. -/
def ipTokenPrivate (tok : Str) : Bool :=
  ((parseIPv4 tok).map ipv4IsPrivate).getD false

/-- The filtered token list of `get_ip_address`:
`[i for i in out.split() if i and not i.startswith("127.")]`. -/
def ipCandidates (out : Str) : List Str :=
  (pySplitWs out).filter (fun i => i ≠ [] && !strStarts i ('1' :: '2' :: '7' :: '.' :: []))

/-- `bootstrap/utils/nmcli_utils.py`, `get_ip_address`: over the stripped
stdout of `hostname -I`, returns the first non-`127.`-prefixed token whose
parsed address is private, else the first non-`127.`-prefixed token, else
`None`. -/
def get_ip_address (o : ExecOutcome) : Option Str :=
  let ips := ipCandidates (runCmd o).2.1
  match ips.find? ipTokenPrivate with
  | some ip => some ip
  | none => ips.head?

end Nmcli

namespace Archive

/-- `archive/network-old.py`, `run`: `subprocess.run` with timeout; on
`TimeoutExpired` returns `(1, "", "Command timed out")`, never raises. -/
def runCmd : ExecOutcome → Int × Str × Str
  | .completed rc out err => (rc, pyStrip out, pyStrip err)
  | .timedOut => (1, [], ("Command timed out".data))

/-- `archive/network-old.py`, dataclass `WifiNetwork`. -/
structure WifiNetwork where
  ssid : Str
  signal : Int
  security : Str
deriving DecidableEq

/-- Sort order of `scan_wifi`: Python key `(-n.signal, n.ssid.lower())`
compared lexicographically; `strLe` is code-point order on strings. -/
def strLe : Str → Str → Bool
  | [], _ => true
  | a :: as_, b :: bs =>
    if a.toNat < b.toNat then true
    else if b.toNat < a.toNat then false
    else strLe as_ bs
  | _ :: _, [] => false

/-- Boolean total preorder realising `key=lambda n: (-n.signal, n.ssid.lower())`. -/
def wifiLe (x y : WifiNetwork) : Bool :=
  if y.signal < x.signal then true
  else if x.signal < y.signal then false
  else strLe (pyLower x.ssid) (pyLower y.ssid)

/-- The effective SSID of a well-formed scan line of `scan_wifi` with the
field columns `c :: rev` (reversed prefix before the last two fields):
`":".join(parts[:-2]).strip()`, replaced by `"(hidden)"` when empty. -/
def effectiveSsid (c : Str) (rev : List Str) : Str :=
  let ssid0 := pyStrip (List.intercalate [':'] ((c :: rev).reverse))
  if ssid0 = [] then ("(hidden)".data) else ssid0

/-- The effective SSID of one scan line (at least three colon-separated
fields); `none` for a line with fewer than three fields. -/
def lineSsid (line : Str) : Option Str :=
  match (pySplit ':' line).reverse with
  | _sec :: _sig :: c :: rev => some (effectiveSsid c rev)
  | _ => none

/-- Loop of `scan_wifi` over lines, with the `seen` SSID set: skips lines
with fewer than three fields and lines whose effective SSID was already
seen; a non-integer signal becomes `0`; empty security becomes `"--"`. -/
def scanWifiAux : List Str → List Str → List WifiNetwork
  | [], _ => []
  | line :: ls, seenSet =>
    match (pySplit ':' line).reverse with
    | sec :: sig :: c :: rev =>
      let ssid := effectiveSsid c rev
      let security0 := pyStrip sec
      let security := if security0 = [] then ('-' :: '-' :: []) else security0
      if ssid ∈ seenSet then scanWifiAux ls seenSet
      else
        let sigv := ((pyInt (pyStrip sig)).getD 0)
        ⟨ssid, sigv, security⟩ :: scanWifiAux ls (ssid :: seenSet)
    | _ => scanWifiAux ls seenSet

/-- `archive/network-old.py`, `scan_wifi`: on nonzero exit code returns `[]`;
otherwise parses each line, deduplicates by SSID via the `seen` set, and
stable-sorts by `(-signal, ssid.lower())`. -/
def scan_wifi (o : ExecOutcome) : List WifiNetwork :=
  let r := runCmd o
  if r.1 ≠ 0 then []
  else pySort wifiLe (scanWifiAux (pySplitlines r.2.1) [])

/-- The direct hidden-connect command of `connect_hidden_wifi`:
`["nmcli", "device", "wifi", "connect", ssid, "hidden", "yes"]` plus the
password arguments when a password is given. -/
def hiddenCmd (ssid password : Str) : List Str :=
  [("nmcli".data), ("device".data), ("wifi".data), ("connect".data), ssid,
   ("hidden".data), ("yes".data)] ++
  (if password = [] then [] else [("password".data), password])

/-- The fallback profile-creation command of `connect_hidden_wifi`
(`nmcli connection add ...`), with WPA-PSK security arguments when a
password is given. -/
def addCmd (ssid password : Str) : List Str :=
  [("nmcli".data), ("connection".data), ("add".data),
   ("type".data), ("wifi".data), ("con-name".data), ssid,
   ("ifname".data), ("*".data), ("ssid".data), ssid] ++
  (if password = [] then []
   else [("wifi-sec.key-mgmt".data), ("wpa-psk".data), ("wifi-sec.psk".data), password])

/-- The final `nmcli connection up ssid` command of `connect_hidden_wifi`. -/
def upCmd (ssid : Str) : List Str :=
  [("nmcli".data), ("connection".data), ("up".data), ssid]

/-- `archive/network-old.py`, `connect_hidden_wifi`: attempts the direct
connect-with-hidden-flag command; on failure adds a connection profile
(tolerating an already-exists error) and brings it up.  Returns the
`(ok, message)` pair of the source together with the list of commands
issued, in order. -/
def connect_hidden_wifi (exec : List Str → Nat → ExecOutcome)
    (ssid password : Str) : (Bool × Str) × List (List Str) :=
  if ssid = [] then ((false, ("SSID cannot be empty.".data)), [])
  else
    let cmd := hiddenCmd ssid password
    let r := runCmd (exec cmd 25)
    if r.1 = 0 then
      ((true, pyOrStr r.2.1 ("Connected.".data)), [cmd])
    else
      let add := addCmd ssid password
      let r2 := runCmd (exec add 15)
      if r2.1 ≠ 0 && !strContains (pyLower (r2.2.1 ++ r2.2.2)) ("exists".data) then
        ((false, pyOrStr r2.2.2 (pyOrStr r2.2.1 ("Failed to create connection profile.".data))),
         [cmd, add])
      else
        let up := upCmd ssid
        let r3 := runCmd (exec up 20)
        if r3.1 = 0 then
          ((true, pyOrStr r3.2.1 ("Connected.".data)), [cmd, add, up])
        else
          ((false, pyOrStr r3.2.2 (pyOrStr r3.2.1 ("Failed to bring up connection.".data))),
           [cmd, add, up])

/-- The routing test of `NetworkWizard.attempt_connect`:
`if self.selected_ssid and not any(n.ssid == self.selected_ssid for n in
self.networks)`, which selects `connect_hidden_wifi` over `connect_wifi`. -/
def choosesHiddenPath (networks : List WifiNetwork) (ssid : Str) : Bool :=
  ssid ≠ [] && networks.all (fun n => n.ssid ≠ ssid)

end Archive

/-!
## JSON model

`json.dumps(..., indent=2)` and `json.loads` of Python's standard library
are modelled by an executable serializer and parser over a JSON value type.
Numbers are modelled as integers (floating point is outside the embedding)
and strings as Lean strings (Unicode scalar values).  The serializer writes
Python's `indent=2` layout, escaping `"` and `\` and the control characters;
the parser accepts standard JSON tokens for this universe.
-/

mutual

/-- A JSON value. -/
inductive JVal where
  | null
  | bool (b : Bool)
  | num (i : Int)
  | str (s : Str)
  | arr (a : JArr)
  | obj (o : JObj)

/-- The elements of a JSON array. -/
inductive JArr where
  | nil
  | cons (v : JVal) (tl : JArr)

/-- The members of a JSON object, in insertion order. -/
inductive JObj where
  | nil
  | cons (k : Str) (v : JVal) (tl : JObj)

end

/-- Lowercase hexadecimal digit character for a value below 16. -/
def hexDigitChar (n : Nat) : Char :=
  if n < 10 then Char.ofNat (48 + n) else Char.ofNat (87 + n)

/-- JSON escape of one character: `\"`, `\\`, `\u00XX` for control
characters, the character itself otherwise. -/
def escChar (c : Char) : Str :=
  if c = '"' then ['\\', '"']
  else if c = '\\' then ['\\', '\\']
  else if c.toNat < 32 then
    '\\' :: 'u' :: '0' :: '0' :: hexDigitChar (c.toNat / 16) ::
      hexDigitChar (c.toNat % 16) :: []
  else [c]

/-- JSON escape of a string body. -/
def escStr : Str → Str
  | [] => []
  | c :: rest => escChar c ++ escStr rest

/-- Little-endian decimal digit characters of `n`; `fuel ≥ n` suffices. -/
def natDigitsAux : Nat → Nat → Str
  | 0, _ => []
  | fuel + 1, n =>
    if n = 0 then [] else Char.ofNat (48 + n % 10) :: natDigitsAux fuel (n / 10)

/-- Decimal digit characters of `n`, most significant first. -/
def natToChars (n : Nat) : Str :=
  if n = 0 then ['0'] else (natDigitsAux n n).reverse

/-- Python `str(i)` for an integer. -/
def intToChars (i : Int) : Str :=
  if i < 0 then '-' :: natToChars i.natAbs else natToChars i.toNat

/-- The indentation prefix at nesting level `n` for `indent=2`. -/
def indentChars (n : Nat) : Str := List.replicate (2 * n) ' '

mutual

/-- `json.dumps(..., indent=2)` of a value placed at nesting level `lvl`. -/
def serVal (lvl : Nat) : JVal → Str
  | .null => ("null".data)
  | .bool true => ("true".data)
  | .bool false => ("false".data)
  | .num i => intToChars i
  | .str s => '"' :: (escStr s ++ ['"'])
  | .arr .nil => ['[', ']']
  | .arr (.cons v tl) =>
    '[' :: '\n' :: (indentChars (lvl + 1) ++ serVal (lvl + 1) v ++ serArrTail lvl tl)
  | .obj .nil => ['{', '}']
  | .obj (.cons k v tl) =>
    '{' :: '\n' :: (indentChars (lvl + 1) ++
      ('"' :: (escStr k ++ '"' :: ':' :: ' ' :: serVal (lvl + 1) v)) ++ serObjTail lvl tl)

/-- The serialization after the first array element: `,\n`-separated further
elements, then the closing `]` on its own indented line. -/
def serArrTail (lvl : Nat) : JArr → Str
  | .nil => '\n' :: (indentChars lvl ++ [']'])
  | .cons v tl =>
    ',' :: '\n' :: (indentChars (lvl + 1) ++ serVal (lvl + 1) v ++ serArrTail lvl tl)

/-- The serialization after the first object member. -/
def serObjTail (lvl : Nat) : JObj → Str
  | .nil => '\n' :: (indentChars lvl ++ ['}'])
  | .cons k v tl =>
    ',' :: '\n' :: (indentChars (lvl + 1) ++
      ('"' :: (escStr k ++ '"' :: ':' :: ' ' :: serVal (lvl + 1) v)) ++ serObjTail lvl tl)

end

/-- `json.dumps(v, indent=2)`. -/
def jsonDumps (v : JVal) : Str := serVal 0 v

/-- JSON insignificant whitespace. -/
def jsonWs (c : Char) : Bool := c = ' ' || c = '\t' || c = '\n' || c = '\r'

/-- Skip insignificant whitespace. -/
def skipWs (s : Str) : Str := s.dropWhile jsonWs

/-- Consume an expected literal character sequence. -/
def expectChars : Str → Str → Option Str
  | [], s => some s
  | _ :: _, [] => none
  | p :: ps, c :: rest => if c = p then expectChars ps rest else none

/-- Value of a hexadecimal digit character. -/
def hexVal (c : Char) : Option Nat :=
  if 48 ≤ c.toNat && c.toNat ≤ 57 then some (c.toNat - 48)
  else if 97 ≤ c.toNat && c.toNat ≤ 102 then some (c.toNat - 87)
  else if 65 ≤ c.toNat && c.toNat ≤ 70 then some (c.toNat - 55)
  else none

/-- Unescape of a single-character JSON escape. -/
def unescChar (e : Char) : Option Char :=
  if e = '"' then some '"'
  else if e = '\\' then some '\\'
  else if e = '/' then some '/'
  else if e = 'b' then some '\x08'
  else if e = 'f' then some '\x0c'
  else if e = 'n' then some '\n'
  else if e = 'r' then some '\r'
  else if e = 't' then some '\t'
  else none

/-- Decode one JSON escape after the backslash: the decoded character and
the remaining input. -/
def decodeEsc : Str → Option (Char × Str)
  | [] => none
  | e :: rest1 =>
    if e = 'u' then
      match rest1 with
      | h1 :: h2 :: h3 :: h4 :: rest2 =>
        (hexVal h1).bind (fun a => (hexVal h2).bind (fun b =>
          (hexVal h3).bind (fun c2 => (hexVal h4).map (fun d =>
            (Char.ofNat (a * 4096 + b * 256 + c2 * 16 + d), rest2)))))
      | _ => none
    else (unescChar e).map (fun u => (u, rest1))

/-- Parse a JSON string body after the opening quote, up to and including
the closing quote; returns the body and the remaining input.  One unit of
fuel is spent per produced character; the wrapper supplies the input length,
which always suffices since every step consumes at least one character. -/
def parseStrBodyF : Nat → Str → Option (Str × Str)
  | 0, _ => none
  | _ + 1, [] => none
  | fuel + 1, c :: rest =>
    if c = '"' then some ([], rest)
    else if c ≠ '\\' then (parseStrBodyF fuel rest).map (fun p => (c :: p.1, p.2))
    else
      match decodeEsc rest with
      | some ur => (parseStrBodyF fuel ur.2).map (fun p => (ur.1 :: p.1, p.2))
      | none => none

/-- Parse a JSON string body after the opening quote. -/
def parseStrBody (s : Str) : Option (Str × Str) := parseStrBodyF s.length s

/-- Parse a nonempty run of decimal digits. -/
def parseNat (s : Str) : Option (Nat × Str) :=
  let ds := s.takeWhile Char.isDigit
  if ds = [] then none
  else some (ds.foldl (fun acc c => acc * 10 + (c.toNat - 48)) 0, s.dropWhile Char.isDigit)

mutual

/-- Parse one JSON value (fuel-indexed; `fuel` larger than the nesting
size of the value suffices). -/
def parseVal : Nat → Str → Option (JVal × Str)
  | 0, _ => none
  | fuel + 1, s0 =>
    match skipWs s0 with
    | [] => none
    | c :: r =>
      if c = 'n' then (expectChars ['u', 'l', 'l'] r).map (fun r1 => (.null, r1))
      else if c = 't' then (expectChars ['r', 'u', 'e'] r).map (fun r1 => (.bool true, r1))
      else if c = 'f' then (expectChars ['a', 'l', 's', 'e'] r).map (fun r1 => (.bool false, r1))
      else if c = '"' then (parseStrBody r).map (fun p => (.str p.1, p.2))
      else if c = '[' then
        let r1 := skipWs r
        if r1.head? = some ']' then some (.arr .nil, r1.tail)
        else
          match parseVal fuel r1 with
          | none => none
          | some (v, r2) =>
            match parseArrTail fuel r2 with
            | none => none
            | some (tl, r3) => some (.arr (.cons v tl), r3)
      else if c = '{' then
        let r1 := skipWs r
        if r1.head? = some '}' then some (.obj .nil, r1.tail)
        else if r1.head? = some '"' then
          match parseStrBody r1.tail with
          | none => none
          | some (k, r2) =>
            let r3 := skipWs r2
            if r3.head? = some ':' then
              match parseVal fuel r3.tail with
              | none => none
              | some (v, r4) =>
                match parseObjTail fuel r4 with
                | none => none
                | some (tl, r5) => some (.obj (.cons k v tl), r5)
            else none
        else none
      else if c = '-' then (parseNat r).map (fun p => (.num (-(p.1 : Int)), p.2))
      else if c.isDigit then (parseNat (c :: r)).map (fun p => (.num (p.1 : Int), p.2))
      else none

/-- Parse the remainder of a JSON array after one element: `,`-separated
further elements up to the closing `]`. -/
def parseArrTail : Nat → Str → Option (JArr × Str)
  | 0, _ => none
  | fuel + 1, s =>
    match skipWs s with
    | [] => none
    | c :: r =>
      if c = ']' then some (.nil, r)
      else if c = ',' then
        match parseVal fuel r with
        | none => none
        | some (v, r1) =>
          match parseArrTail fuel r1 with
          | none => none
          | some (tl, r2) => some (.cons v tl, r2)
      else none

/-- Parse the remainder of a JSON object after one member. -/
def parseObjTail : Nat → Str → Option (JObj × Str)
  | 0, _ => none
  | fuel + 1, s =>
    match skipWs s with
    | [] => none
    | c :: r =>
      if c = '}' then some (.nil, r)
      else if c = ',' then
        let r1 := skipWs r
        if r1.head? = some '"' then
          match parseStrBody r1.tail with
          | none => none
          | some (k, r2) =>
            let r3 := skipWs r2
            if r3.head? = some ':' then
              match parseVal fuel r3.tail with
              | none => none
              | some (v, r4) =>
                match parseObjTail fuel r4 with
                | none => none
                | some (tl, r5) => some (.cons k v tl, r5)
            else none
        else none
      else none

end

/-- `json.loads`: parse a complete document, allowing surrounding
whitespace, rejecting trailing input; `none` models the raised
`JSONDecodeError`. -/
def jsonLoads (s : Str) : Option JVal :=
  match parseVal (s.length + 1) s with
  | some (v, r) => if skipWs r = [] then some v else none
  | none => none

namespace StateStore

/-- `bootstrap/utils/state_utils.py`, `load_state`: the state file is
modelled by its contents when it exists (`Option Str`).  A missing file or
any exception while reading/parsing yields the empty mapping `{}`; otherwise
the parsed JSON value is returned as is (no mapping check). -/
def load_state (file : Option Str) : JVal :=
  match file with
  | none => .obj .nil
  | some s => (jsonLoads s).getD (.obj .nil)

/-- `bootstrap/utils/state_utils.py`, `save_state`: writes
`json.dumps(state, indent=2)` as the new file contents (parent-directory
creation is a filesystem effect outside the embedding). -/
def save_state (state : JObj) : Option Str :=
  some (jsonDumps (.obj state))

end StateStore

/-- Python truthiness of a JSON value (`if data.get("active"):`). -/
def pyTruthy : JVal → Bool
  | .null => false
  | .bool b => b
  | .num i => i ≠ 0
  | .str s => s ≠ []
  | .arr a => match a with | .nil => false | .cons _ _ => true
  | .obj o => match o with | .nil => false | .cons _ _ _ => true

/-- Lookup of a key in a JSON object's member list (first match, as built
by Python dicts which never hold duplicate keys). -/
def jObjLookup : JObj → Str → Option JVal
  | .nil, _ => none
  | .cons k v tl, key => if k = key then some v else jObjLookup tl key

/-- Python `data.get(key)`: `none` models the `AttributeError` raised when
`data` is not a dict; `some r` is the lookup result (`r = none` for a
missing key, i.e. Python `None`). -/
def pyDictGet : JVal → Str → Option (Option JVal)
  | .obj o, key => some (jObjLookup o key)
  | _, _ => none

namespace Api

/-- Outcome of the one HTTP GET of `check_key_status`: either the request
raised (network error, text `e`), or a response arrived with a status code
and a body.  `body = none` models a body on which `r.json()` raises; the
`e` field carries the text of whichever exception is raised while the
response is processed (it is also caught by the `except` clause). -/
inductive HttpOutcome where
  | exc (e : Str)
  | response (status : Nat) (body : Option JVal) (e : Str)

/-- `bootstrap/utils/api_utils.py`, `check_key_status`: HTTP 200 with a dict
body whose `active` member is truthy maps to success; a 200 body that fails
JSON parsing or is not a dict raises inside the `try` and is caught as a
network error; any non-200 status falls through to `(False, "Invalid API
key.")`; a request exception is caught as a network error.  Total: the
function never raises. -/
def check_key_status : HttpOutcome → Bool × Str
  | .exc e => (false, ("Network error: ".data) ++ e)
  | .response status body e =>
    if status = 200 then
      match body with
      | none => (false, ("Network error: ".data) ++ e)
      | some data =>
        match pyDictGet data ("active".data) with
        | none => (false, ("Network error: ".data) ++ e)
        | some av =>
          if pyTruthy (av.getD .null) then (true, ("API key active ✅".data))
          else (false, ("Key found but not activated.".data))
    else (false, ("Invalid API key.".data))

end Api

namespace Wizard

/-- The three screens the wizard can push after the network step. -/
inductive WizStep where
  | networkStep
  | activationStep
  | summaryStep (result : JVal)

/-- The error result `{"error": "Network not connected"}` pushed to the
summary screen when the network step did not connect. -/
def errorResult : JVal :=
  .obj (.cons ("error".data) (.str ("Network not connected".data)) .nil)

/-- `bootstrap/wizard.py`, `BootstrapWizard.after_network`: pushes the
summary screen with the error result unless `network_result.get("connected")`
is truthy, in which case it pushes the activation screen. -/
def after_network (network_result : JObj) : WizStep :=
  if !pyTruthy ((jObjLookup network_result ("connected".data)).getD .null) then
    .summaryStep errorResult
  else .activationStep

/-- `bootstrap/screens/network_screen.py`, `handle_done`: the result
dictionary `{"connected": connected, "ip": ip}` passed to `on_done`, with
`connected` the boolean from `get_connectivity` and `ip` the optional
address from `get_ip_address`. -/
def networkStepResult (connected : Bool) (ip : Option Str) : JObj :=
  .cons ("connected".data) (.bool connected)
    (.cons ("ip".data) (ip.elim .null .str) .nil)

end Wizard

/-!
## Basic lemmas and the wizard / command-runner / scan-invariant claims
-/

/-- Records produced by `scanLines` all have the nonempty SSID their line
passed the `if ssid:` test with. -/
theorem scanLines_ssid_ne_nil :
    ∀ (lines : List Str) (nets : List Nmcli.NmNet),
      Nmcli.scanLines lines = some nets → ∀ n ∈ nets, n.ssid ≠ [] := by
  intro lines
  induction lines with
  | nil =>
    intro nets h n hn
    simp only [Nmcli.scanLines, Option.some.injEq] at h
    subst h
    cases hn
  | cons line ls ih =>
    intro nets h n hn
    rw [Nmcli.scanLines] at h
    split at h
    · exact ih nets h n hn
    · next hss =>
      split at h
      · cases h
      · rw [Option.map_eq_some'] at h
        obtain ⟨nets', hrec, rfl⟩ := h
        rcases List.mem_cons.mp hn with hn' | hn'
        · subst hn'
          simpa using hss
        · exact ih nets' hrec n hn'

/-- Claim C9: every network record returned by `scan_networks` has a
nonempty SSID string: lines whose SSID field is empty are dropped, so the
returned list never contains an empty-named entry. -/
theorem scan_networks_ssid_nonempty (o : ExecOutcome) (nets : List Nmcli.NmNet)
    (h : Nmcli.scan_networks o = some nets) : ∀ n ∈ nets, n.ssid ≠ [] :=
  scanLines_ssid_ne_nil _ nets h

/-- Witness for C9 on a concrete scan output containing an empty-SSID line. -/
theorem scan_networks_ssid_nonempty_witness :
    Nmcli.scan_networks (.completed 0 ((":70\nmynet:55").data) []) =
      some [⟨("mynet".data), 55⟩] ∧
    ∀ n ∈ [(⟨("mynet".data), 55⟩ : Nmcli.NmNet)], n.ssid ≠ [] :=
  ⟨by decide, scan_networks_ssid_nonempty (.completed 0 ((":70\nmynet:55").data) [])
    [⟨("mynet".data), 55⟩] (by decide)⟩

/-- Claim C4: a command whose execution exceeds its timeout yields the
failure tuple `(1, "", "Timeout")` from the current runner (and
`(1, "", "Command timed out")` from the archived runner); the exit code is
nonzero and the stdout empty.  Both runners are total functions of the
execution outcome, modelling that no exception escapes. -/
theorem runCmd_timeout :
    Nmcli.runCmd .timedOut = (1, [], ("Timeout".data)) ∧
    Archive.runCmd .timedOut = (1, [], ("Command timed out".data)) ∧
    (1 : Int) ≠ 0 := by
  refine ⟨rfl, rfl, by decide⟩

/-- Claim C1: the wizard reaches the activation step exactly when the
network step result has `connected = True`; otherwise it goes straight to
the summary step with the error result. -/
theorem after_network_gating (connected : Bool) (ip : Option Str) :
    (Wizard.after_network (Wizard.networkStepResult connected ip) =
        Wizard.WizStep.activationStep ↔ connected = true) ∧
    Wizard.after_network (Wizard.networkStepResult connected ip) =
      (if connected then Wizard.WizStep.activationStep
       else Wizard.WizStep.summaryStep Wizard.errorResult) := by
  cases connected <;>
    simp [Wizard.after_network, Wizard.networkStepResult, jObjLookup, pyTruthy]

/-- Counterexample for C2 as stated: the active `scan_networks` does not
sort by signal descending (nor deduplicate): on the two well-formed lines
`b:50` and `a:70` it returns the records in input order, signal 50 before
signal 70. -/
theorem scan_networks_unsorted_cx :
    Nmcli.scan_networks (.completed 0 (("b:50\na:70").data) []) =
      some [⟨("b".data), 50⟩, ⟨("a".data), 70⟩] ∧
    ¬ ([(⟨("b".data), 50⟩ : Nmcli.NmNet), ⟨("a".data), 70⟩].Pairwise
        (fun x y => y.signal ≤ x.signal)) := by
  constructor
  · decide
  · decide

/-- Counterexample for C3 as stated: the active `connect_network` issues a
single direct connect command containing no hidden flag, regardless of the
SSID being absent from any scan (it never consults scan results at all). -/
theorem connect_network_no_hidden_cx :
    (Nmcli.connect_network (fun _ _ => .completed 1 [] []) (("MyHidden").data) []).2 =
      [Nmcli.connectCmd (("MyHidden").data) []] ∧
    ("hidden".data) ∉ Nmcli.connectCmd (("MyHidden").data) [] := by
  constructor
  · rfl
  · decide

/-- Counterexample for C6 as stated: a 200 response whose `active` member is
the number `1` (not the boolean `true`) is mapped to success, because the
code tests Python truthiness of `data.get("active")`. -/
theorem check_key_status_truthy_cx :
    (Api.check_key_status
        (.response 200 (some (.obj (.cons ("active".data) (.num 1) .nil))) [])).1 = true ∧
    jObjLookup (.cons ("active".data) (.num 1) .nil) ("active".data) ≠
      some (JVal.bool true) := by
  constructor
  · decide
  · intro h
    simp [jObjLookup] at h

/-- Counterexample for C7 as stated: a line whose signal field is not an
integer is not skipped by the active `scan_networks`; the `int` call raises
(modelled by `none`), losing the well-formed line `good:70` in the same
text. -/
theorem scan_networks_raises_cx :
    Nmcli.scan_networks (.completed 0 (("good:70\nbad:xx").data) []) = none := by
  decide

/-- Counterexample for C8 as stated: on the address list `8.8.8.8`, which
contains no private address, `get_ip_address` still returns `8.8.8.8`,
which is not a private IPv4 address. -/
theorem get_ip_address_public_cx :
    Nmcli.get_ip_address (.completed 0 (("8.8.8.8").data) []) = some (("8.8.8.8").data) ∧
    Nmcli.ipTokenPrivate (("8.8.8.8").data) = false := by
  constructor
  · decide
  · decide

/-!
## Stable sort theory for the archived scan
-/

/-- Membership of the stable insertion. -/
theorem mem_pyInsert {α : Type} (le : α → α → Bool) (x y : α) :
    ∀ l : List α, y ∈ pyInsert le x l ↔ y = x ∨ y ∈ l := by
  intro l
  induction l with
  | nil => simp [pyInsert]
  | cons b bs ih =>
    rw [pyInsert]
    split
    · simp only [List.mem_cons, ih]
      tauto
    · simp only [List.mem_cons]

/-- The stable insertion permutes the cons. -/
theorem pyInsert_perm {α : Type} (le : α → α → Bool) (x : α) :
    ∀ l : List α, (pyInsert le x l).Perm (x :: l) := by
  intro l
  induction l with
  | nil => simp [pyInsert]
  | cons b bs ih =>
    rw [pyInsert]
    split
    · exact (ih.cons b).trans (List.Perm.swap x b bs)
    · exact List.Perm.refl _

/-- The stable sort is a permutation of its input. -/
theorem pySort_perm {α : Type} (le : α → α → Bool) :
    ∀ l : List α, (pySort le l).Perm l := by
  intro l
  induction l with
  | nil => exact List.Perm.refl _
  | cons x xs ih =>
    exact (pyInsert_perm le x (pySort le xs)).trans (ih.cons x)

/-- Inserting into a pairwise-`le` list preserves pairwise-`le`, for a total
transitive boolean preorder. -/
theorem pairwise_pyInsert {α : Type} (le : α → α → Bool)
    (htot : ∀ a b, le a b || le b a)
    (htrans : ∀ a b c, le a b = true → le b c = true → le a c = true)
    (x : α) :
    ∀ l : List α, l.Pairwise (fun a b => le a b = true) →
      (pyInsert le x l).Pairwise (fun a b => le a b = true) := by
  intro l
  induction l with
  | nil =>
    intro _
    simp [pyInsert]
  | cons b bs ih =>
    intro h
    rw [List.pairwise_cons] at h
    obtain ⟨hb, hbs⟩ := h
    rw [pyInsert]
    split
    · next hcond =>
      rw [Bool.and_eq_true, Bool.not_eq_true'] at hcond
      rw [List.pairwise_cons]
      refine ⟨?_, ih hbs⟩
      intro y hy
      rcases (mem_pyInsert le x y bs).mp hy with rfl | hy'
      · exact hcond.1
      · exact hb y hy'
    · next hcond =>
      rw [Bool.and_eq_true, Bool.not_eq_true'] at hcond
      have hxb : le x b = true := by
        by_cases h1 : le b x = true
        · rcases not_and.mp hcond h1 with h2
          rw [Bool.not_eq_false] at h2
          exact h2
        · have := htot x b
          rw [Bool.or_eq_true] at this
          rcases this with h | h
          · exact h
          · exact absurd h h1
      rw [List.pairwise_cons]
      refine ⟨?_, List.pairwise_cons.mpr ⟨hb, hbs⟩⟩
      intro y hy
      rcases List.mem_cons.mp hy with rfl | hy'
      · exact hxb
      · exact htrans x b y hxb (hb y hy')

/-- The stable sort is pairwise-`le` for a total transitive boolean
preorder. -/
theorem pairwise_pySort {α : Type} (le : α → α → Bool)
    (htot : ∀ a b, le a b || le b a)
    (htrans : ∀ a b c, le a b = true → le b c = true → le a c = true) :
    ∀ l : List α, (pySort le l).Pairwise (fun a b => le a b = true) := by
  intro l
  induction l with
  | nil => simp [pySort]
  | cons x xs ih =>
    exact pairwise_pyInsert le htot htrans x _ ih

namespace Archive

/-- Code-point order on strings is total. -/
theorem strLe_total : ∀ s t : Str, (strLe s t || strLe t s) = true := by
  intro s
  induction s with
  | nil => intro t; simp [strLe]
  | cons a as_ ih =>
    intro t
    cases t with
    | nil => simp [strLe]
    | cons b bs =>
      rw [strLe, strLe]
      by_cases h1 : a.toNat < b.toNat
      · rw [if_pos h1, Bool.true_or]
      · rw [if_neg h1]
        by_cases h2 : b.toNat < a.toNat
        · rw [if_pos h2, if_pos h2, Bool.false_or]
        · rw [if_neg h2, if_neg h2, if_neg h1]
          exact ih bs

/-- Code-point order on strings is transitive. -/
theorem strLe_trans : ∀ s t u : Str, strLe s t = true → strLe t u = true →
    strLe s u = true := by
  intro s
  induction s with
  | nil => intro t u _ _; rw [strLe]
  | cons a as_ ih =>
    intro t u h1 h2
    cases t with
    | nil => rw [strLe] at h1; cases h1
    | cons b bs =>
      cases u with
      | nil => rw [strLe] at h2; cases h2
      | cons c cs =>
        rw [strLe] at h1 h2 ⊢
        split at h1
        · next hab =>
          split at h2
          · next hbc => rw [if_pos (show a.toNat < c.toNat by omega)]
          · next hbc =>
            split at h2
            · cases h2
            · next hcb => rw [if_pos (show a.toNat < c.toNat by omega)]
        · next hab =>
          split at h1
          · cases h1
          · next hba =>
            split at h2
            · next hbc => rw [if_pos (show a.toNat < c.toNat by omega)]
            · next hbc =>
              split at h2
              · cases h2
              · next hcb =>
                rw [if_neg (show ¬ a.toNat < c.toNat by omega),
                  if_neg (show ¬ c.toNat < a.toNat by omega)]
                exact ih bs cs h1 h2

/-- The scan sort order is total. -/
theorem wifiLe_total : ∀ x y : WifiNetwork, (wifiLe x y || wifiLe y x) = true := by
  intro x y
  rw [wifiLe, wifiLe]
  by_cases h1 : y.signal < x.signal
  · rw [if_pos h1, Bool.true_or]
  · rw [if_neg h1]
    by_cases h2 : x.signal < y.signal
    · rw [if_pos h2, if_pos h2, Bool.false_or]
    · rw [if_neg h2, if_neg h2, if_neg h1]
      exact strLe_total (pyLower x.ssid) (pyLower y.ssid)

/-- The scan sort order is transitive. -/
theorem wifiLe_trans : ∀ x y z : WifiNetwork,
    wifiLe x y = true → wifiLe y z = true → wifiLe x z = true := by
  intro x y z h1 h2
  rw [wifiLe] at h1 h2 ⊢
  split at h1
  · next hyx =>
    split at h2
    · next hzy => rw [if_pos (show z.signal < x.signal by omega)]
    · next hzy =>
      split at h2
      · cases h2
      · next hyz => rw [if_pos (show z.signal < x.signal by omega)]
  · next hyx =>
    split at h1
    · cases h1
    · next hxy =>
      split at h2
      · next hzy => rw [if_pos (show z.signal < x.signal by omega)]
      · next hzy =>
        split at h2
        · cases h2
        · next hyz =>
          rw [if_neg (show ¬ z.signal < x.signal by omega),
            if_neg (show ¬ x.signal < z.signal by omega)]
          exact strLe_trans _ _ _ h1 h2

end Archive

namespace Archive

/-- Every record produced by the scan loop has an SSID outside the `seen`
set it started from. -/
theorem scanWifiAux_ssid_not_seen :
    ∀ (lines : List Str) (seenSet : List Str) (n : WifiNetwork),
      n ∈ scanWifiAux lines seenSet → n.ssid ∉ seenSet := by
  intro lines
  induction lines with
  | nil =>
    intro seenSet n hmem
    simp [scanWifiAux] at hmem
  | cons line ls ih =>
    intro seenSet n hmem
    rw [scanWifiAux] at hmem
    split at hmem
    · dsimp only at hmem
      split at hmem
      · exact ih seenSet n hmem
      · next hss =>
        rcases List.mem_cons.mp hmem with rfl | hmem'
        · exact hss
        · intro hcontra
          exact ih _ n hmem' (List.mem_cons_of_mem _ hcontra)
    · exact ih seenSet n hmem

/-- The scan loop never produces two records with the same SSID. -/
theorem scanWifiAux_ssid_nodup :
    ∀ (lines : List Str) (seenSet : List Str),
      ((scanWifiAux lines seenSet).map WifiNetwork.ssid).Nodup := by
  intro lines
  induction lines with
  | nil => intro seenSet; simp [scanWifiAux]
  | cons line ls ih =>
    intro seenSet
    rw [scanWifiAux]
    split
    · dsimp only
      split
      · exact ih seenSet
      · rw [List.map_cons, List.nodup_cons]
        refine ⟨?_, ih _⟩
        intro hcontra
        rw [List.mem_map] at hcontra
        obtain ⟨m, hm, hms⟩ := hcontra
        have := scanWifiAux_ssid_not_seen ls _ m hm
        exact this (hms ▸ List.mem_cons_self _ _)
    · exact ih seenSet

/-- When the effective SSIDs of the well-formed lines are pairwise distinct
and disjoint from the `seen` set, the scan loop yields exactly one record
per well-formed line. -/
theorem scanWifiAux_length :
    ∀ (lines : List Str) (seenSet : List Str),
      (∀ s ∈ lines.filterMap lineSsid, s ∉ seenSet) →
      (lines.filterMap lineSsid).Nodup →
      (scanWifiAux lines seenSet).length =
        lines.countP (fun l => (lineSsid l).isSome) := by
  intro lines
  induction lines with
  | nil => intro seenSet _ _; simp [scanWifiAux]
  | cons line ls ih =>
    intro seenSet hseen hnodup
    rw [scanWifiAux]
    rcases hrev : (pySplit ':' line).reverse with _ | ⟨sec, _ | ⟨sig, _ | ⟨c, rev⟩⟩⟩
    · have hline : lineSsid line = none := by rw [lineSsid, hrev]
      rw [List.filterMap_cons, hline] at hseen hnodup
      rw [List.countP_cons, hline]
      simp only [Option.isSome_none, Bool.false_eq_true, if_false, Nat.add_zero]
      exact ih seenSet hseen hnodup
    · have hline : lineSsid line = none := by rw [lineSsid, hrev]
      rw [List.filterMap_cons, hline] at hseen hnodup
      rw [List.countP_cons, hline]
      simp only [Option.isSome_none, Bool.false_eq_true, if_false, Nat.add_zero]
      exact ih seenSet hseen hnodup
    · have hline : lineSsid line = none := by rw [lineSsid, hrev]
      rw [List.filterMap_cons, hline] at hseen hnodup
      rw [List.countP_cons, hline]
      simp only [Option.isSome_none, Bool.false_eq_true, if_false, Nat.add_zero]
      exact ih seenSet hseen hnodup
    · have hline : lineSsid line = some (effectiveSsid c rev) := by rw [lineSsid, hrev]
      rw [List.filterMap_cons, hline] at hseen hnodup
      rw [List.countP_cons, hline]
      simp only [Option.isSome_some, if_true]
      rw [List.nodup_cons] at hnodup
      have hnotseen : effectiveSsid c rev ∉ seenSet :=
        hseen _ (List.mem_cons_self _ _)
      rw [if_neg hnotseen]
      rw [List.length_cons]
      have ihr := ih (effectiveSsid c rev :: seenSet) ?_ hnodup.2
      · rw [ihr]
      · intro s hs
        rw [List.mem_cons]
        rintro (rfl | hcontra)
        · exact hnodup.1 hs
        · exact hseen s (List.mem_cons_of_mem _ hs) hcontra

end Archive

/-- Claim C2 (amended): the archived `scan_wifi` returns records
deduplicated by SSID and stable-sorted by signal descending then lowercased
name; when the scan command succeeds and the effective SSIDs of its
well-formed lines (three or more fields) are pairwise distinct, it returns
exactly one record per well-formed line.  (The active `scan_networks`
neither deduplicates nor sorts; see its counterexample.) -/
theorem scan_wifi_sorted_dedup (o : ExecOutcome)
    (hdistinct : ((pySplitlines (Archive.runCmd o).2.1).filterMap Archive.lineSsid).Nodup) :
    (Archive.scan_wifi o).Pairwise (fun a b => Archive.wifiLe a b = true) ∧
    ((Archive.scan_wifi o).map Archive.WifiNetwork.ssid).Nodup ∧
    ((Archive.runCmd o).1 = 0 →
      (Archive.scan_wifi o).length =
        (pySplitlines (Archive.runCmd o).2.1).countP
          (fun l => (Archive.lineSsid l).isSome)) := by
  refine ⟨?_, ?_, ?_⟩
  · rw [Archive.scan_wifi]
    split
    · simp
    · exact pairwise_pySort _ Archive.wifiLe_total Archive.wifiLe_trans _
  · rw [Archive.scan_wifi]
    split
    · simp
    · have hperm :=
        (pySort_perm Archive.wifiLe
          (Archive.scanWifiAux (pySplitlines (Archive.runCmd o).2.1) [])).map
            Archive.WifiNetwork.ssid
      exact hperm.nodup_iff.mpr (Archive.scanWifiAux_ssid_nodup _ _)
  · intro hrc
    rw [Archive.scan_wifi]
    rw [if_neg (by simp [hrc])]
    rw [(pySort_perm _ _).length_eq]
    exact Archive.scanWifiAux_length _ [] (by simp) hdistinct

/-- Witness for the amended C2 on a concrete scan output with a malformed
line and an empty-security line, whose effective SSIDs are distinct. -/
theorem scan_wifi_sorted_dedup_witness :
    ((pySplitlines (Archive.runCmd
        (.completed 0 (("beta:50:WPA2\nalpha:70:\nmal").data) [])).2.1).filterMap
      Archive.lineSsid).Nodup ∧
    ((Archive.scan_wifi (.completed 0 (("beta:50:WPA2\nalpha:70:\nmal").data) [])).Pairwise
        (fun a b => Archive.wifiLe a b = true) ∧
      ((Archive.scan_wifi (.completed 0 (("beta:50:WPA2\nalpha:70:\nmal").data) [])).map
          Archive.WifiNetwork.ssid).Nodup ∧
      ((Archive.runCmd (.completed 0 (("beta:50:WPA2\nalpha:70:\nmal").data) [])).1 = 0 →
        (Archive.scan_wifi (.completed 0 (("beta:50:WPA2\nalpha:70:\nmal").data) [])).length =
          (pySplitlines (Archive.runCmd
            (.completed 0 (("beta:50:WPA2\nalpha:70:\nmal").data) [])).2.1).countP
              (fun l => (Archive.lineSsid l).isSome))) :=
  ⟨by decide,
   scan_wifi_sorted_dedup (.completed 0 (("beta:50:WPA2\nalpha:70:\nmal").data) []) (by decide)⟩

namespace Nmcli

/-- The record `scan_networks` builds from one line: `none` when the SSID
field is empty (the line is skipped), otherwise the record with the parsed
signal — provided `int` does not raise. -/
def nmRecord (line : Str) : Option NmNet :=
  let parts := pySplit ':' line
  let ssid := parts.headD []
  if ssid = [] then none
  else (pyInt ((parts.drop 1).headD ['0'])).map (fun n => (⟨ssid, n⟩ : NmNet))

/-- A line is harmless for `scan_networks` when its SSID field is empty (the
`int` call is skipped) or its signal field parses as an integer. -/
def sigParses (line : Str) : Bool :=
  ((pySplit ':' line).headD [] = []) ||
    (pyInt (((pySplit ':' line).drop 1).headD ['0'])).isSome

/-- Over harmless lines, `scanLines` succeeds and yields one record per
nonempty-SSID line. -/
theorem scanLines_eq_of_all :
    ∀ lines : List Str, (∀ l ∈ lines, sigParses l = true) →
      scanLines lines = some (lines.filterMap nmRecord) := by
  intro lines
  induction lines with
  | nil => intro _; simp [scanLines]
  | cons line ls ih =>
    intro hall
    have hline := hall line (List.mem_cons_self _ _)
    have hrest : ∀ l ∈ ls, sigParses l = true :=
      fun l hl => hall l (List.mem_cons_of_mem _ hl)
    rw [scanLines, List.filterMap_cons]
    by_cases hss : (pySplit ':' line).headD [] = []
    · rw [if_pos hss]
      have hrec : nmRecord line = none := by rw [nmRecord, if_pos hss]
      rw [hrec]
      exact ih hrest
    · rw [if_neg hss]
      rw [sigParses, Bool.or_eq_true] at hline
      rcases hline with hline | hline
      · exact absurd (by simpa using hline) hss
      · rw [Option.isSome_iff_exists] at hline
        obtain ⟨n, hn⟩ := hline
        rw [hn]
        have hrec : nmRecord line = some ⟨(pySplit ':' line).headD [], n⟩ := by
          rw [nmRecord, if_neg hss, hn, Option.map_some']
        rw [hrec, ih hrest]
        rfl

/-- A line with nonempty SSID and unparsable signal makes `scanLines`
raise. -/
theorem scanLines_none_of_bad :
    ∀ lines : List Str, (∃ l ∈ lines, sigParses l = false) →
      scanLines lines = none := by
  intro lines
  induction lines with
  | nil => intro h; obtain ⟨l, hl, _⟩ := h; cases hl
  | cons line ls ih =>
    intro h
    obtain ⟨l, hl, hbad⟩ := h
    rw [scanLines]
    rcases List.mem_cons.mp hl with rfl | hl'
    · rw [sigParses] at hbad
      rw [Bool.or_eq_false_iff] at hbad
      obtain ⟨hss, hsig⟩ := hbad
      rw [decide_eq_false_iff_not] at hss
      rw [if_neg hss]
      cases hpi : pyInt (((pySplit ':' l).drop 1).headD ['0']) with
      | none => rfl
      | some n => rw [hpi] at hsig; simp at hsig
    · have hrest : scanLines ls = none := ih ⟨l, hl', hbad⟩
      by_cases hss : (pySplit ':' line).headD [] = []
      · rw [if_pos hss]; exact hrest
      · rw [if_neg hss]
        cases hpi : pyInt (((pySplit ':' line).drop 1).headD ['0']) with
        | none => rfl
        | some n => rw [hrest]; rfl

end Nmcli

/-- Claim C7 (amended): the active `scan_networks` skips lines whose SSID
field is empty and never calls `int` on them, but a line with nonempty SSID
whose signal field is not an integer literal makes the whole scan raise
(modelled by `none`), discarding the well-formed lines of the same text;
it returns one record per nonempty-SSID line exactly when every
nonempty-SSID line has a parsable signal. -/
theorem scan_networks_characterization (o : ExecOutcome) :
    ((∀ l ∈ pySplitlines (Nmcli.runCmd o).2.1, Nmcli.sigParses l = true) →
      Nmcli.scan_networks o =
        some ((pySplitlines (Nmcli.runCmd o).2.1).filterMap Nmcli.nmRecord)) ∧
    ((∃ l ∈ pySplitlines (Nmcli.runCmd o).2.1, Nmcli.sigParses l = false) →
      Nmcli.scan_networks o = none) := by
  constructor
  · intro hall
    exact Nmcli.scanLines_eq_of_all _ hall
  · intro hbad
    exact Nmcli.scanLines_none_of_bad _ hbad

/-- Witness for the amended C7 on a concrete scan output with an
empty-SSID line (which `int` never sees) and two good lines. -/
theorem scan_networks_characterization_witness :
    (∀ l ∈ pySplitlines (Nmcli.runCmd (.completed 0 (("net one:70\n:zz\nnet two:55").data) [])).2.1,
      Nmcli.sigParses l = true) ∧
    Nmcli.scan_networks (.completed 0 (("net one:70\n:zz\nnet two:55").data) []) =
      some ((pySplitlines (Nmcli.runCmd
        (.completed 0 (("net one:70\n:zz\nnet two:55").data) [])).2.1).filterMap Nmcli.nmRecord) :=
  ⟨by decide,
   (scan_networks_characterization (.completed 0 (("net one:70\n:zz\nnet two:55").data) [])).1
     (by decide)⟩

/-- The first element of a list whose prefix fails a predicate and whose
next element satisfies it is what `find?` returns. -/
theorem find?_append_first {α : Type} (p : α → Bool) :
    ∀ (l1 : List α) (t : α) (l2 : List α), p t = true →
      (∀ u ∈ l1, p u = false) → (l1 ++ t :: l2).find? p = some t := by
  intro l1
  induction l1 with
  | nil =>
    intro t l2 hpt _
    rw [List.nil_append]
    exact List.find?_cons_of_pos _ hpt
  | cons a l1t ih =>
    intro t l2 hpt hall
    rw [List.cons_append]
    rw [List.find?_cons_of_neg]
    · exact ih t l2 hpt (fun u hu => hall u (List.mem_cons_of_mem _ hu))
    · rw [hall a (List.mem_cons_self _ _)]
      exact Bool.false_ne_true

/-- Claim C8 (amended): `get_ip_address` returns an element of the filtered
token list (whitespace tokens not starting with `127.`); it returns the
first such token that parses as a private address when one exists; when no
token is private it falls back to the first filtered token (which need not
be private, and may be absent, giving `None`). -/
theorem get_ip_address_characterization (o : ExecOutcome) :
    (∀ ip, Nmcli.get_ip_address o = some ip →
      ip ∈ Nmcli.ipCandidates (Nmcli.runCmd o).2.1) ∧
    (∀ (l1 : List Str) (t : Str) (l2 : List Str),
      Nmcli.ipCandidates (Nmcli.runCmd o).2.1 = l1 ++ t :: l2 →
      Nmcli.ipTokenPrivate t = true →
      (∀ u ∈ l1, Nmcli.ipTokenPrivate u = false) →
      Nmcli.get_ip_address o = some t) ∧
    ((∀ t ∈ Nmcli.ipCandidates (Nmcli.runCmd o).2.1, Nmcli.ipTokenPrivate t = false) →
      Nmcli.get_ip_address o = (Nmcli.ipCandidates (Nmcli.runCmd o).2.1).head?) := by
  refine ⟨?_, ?_, ?_⟩
  · intro ip hip
    rw [Nmcli.get_ip_address] at hip
    cases hf : (Nmcli.ipCandidates (Nmcli.runCmd o).2.1).find? Nmcli.ipTokenPrivate with
    | some t =>
      rw [hf] at hip
      cases hip
      exact List.mem_of_find?_eq_some hf
    | none =>
      rw [hf] at hip
      cases hcand : Nmcli.ipCandidates (Nmcli.runCmd o).2.1 with
      | nil => rw [hcand] at hip; cases hip
      | cons a t =>
        rw [hcand] at hip
        cases hip
        exact List.mem_cons_self _ _
  · intro l1 t l2 hsplit hpt hall
    rw [Nmcli.get_ip_address, hsplit, find?_append_first Nmcli.ipTokenPrivate l1 t l2 hpt hall]
  · intro hall
    rw [Nmcli.get_ip_address, List.find?_eq_none.mpr ?_]
    intro x hx
    rw [hall x hx]
    exact Bool.false_ne_true

/-- Witness for the amended C8: on the list `8.8.8.8 fake 172.16.0.9 10.0.0.8`
the first private token `172.16.0.9` is returned, past the public and
unparsable tokens. -/
theorem get_ip_address_characterization_witness :
    Nmcli.ipCandidates
        (Nmcli.runCmd (.completed 0 (("8.8.8.8 fake 172.16.0.9 10.0.0.8").data) [])).2.1 =
      [("8.8.8.8".data), ("fake".data)] ++ ("172.16.0.9".data) :: [("10.0.0.8".data)] ∧
    Nmcli.ipTokenPrivate ("172.16.0.9".data) = true ∧
    (∀ u ∈ [("8.8.8.8".data), ("fake".data)], Nmcli.ipTokenPrivate u = false) ∧
    Nmcli.get_ip_address (.completed 0 (("8.8.8.8 fake 172.16.0.9 10.0.0.8").data) []) =
      some ("172.16.0.9".data) :=
  ⟨by decide, by decide, by decide,
   (get_ip_address_characterization
      (.completed 0 (("8.8.8.8 fake 172.16.0.9 10.0.0.8").data) [])).2.1
     [("8.8.8.8".data), ("fake".data)] ("172.16.0.9".data) [("10.0.0.8".data)]
     (by decide) (by decide) (by decide)⟩

/-- Claim C6 (amended): `check_key_status` reports success exactly for an
HTTP 200 response whose body is a JSON object whose `active` member is
truthy in Python's sense (so `true`, but also any nonzero number, nonempty
string, nonempty array or object); every other response, every
non-object or unparsable 200 body, and every request exception yield a
failure flag with a message — the function is total and never raises. -/
theorem check_key_status_success_iff (h : Api.HttpOutcome) :
    (Api.check_key_status h).1 = true ↔
      ∃ (o : JObj) (e : Str), h = .response 200 (some (.obj o)) e ∧
        pyTruthy ((jObjLookup o ("active".data)).getD .null) = true := by
  cases h with
  | exc e =>
    simp only [Api.check_key_status]
    constructor
    · intro hfalse; cases hfalse
    · rintro ⟨o, e', heq, _⟩; cases heq
  | response st body e =>
    simp only [Api.check_key_status]
    by_cases hst : st = 200
    · subst hst
      rw [if_pos rfl]
      cases body with
      | none =>
        constructor
        · intro hfalse; cases hfalse
        · rintro ⟨o, e', heq, _⟩; cases heq
      | some data =>
        cases data with
        | obj o =>
          simp only [pyDictGet]
          by_cases ht : pyTruthy ((jObjLookup o ("active".data)).getD .null) = true
          · rw [if_pos ht]
            exact ⟨fun _ => ⟨o, e, rfl, ht⟩, fun _ => rfl⟩
          · rw [if_neg ht]
            constructor
            · intro hfalse; cases hfalse
            · rintro ⟨o', e', heq, ht'⟩
              injection heq with _ hbody _
              injection hbody with hdata
              injection hdata with hobj
              exact absurd (hobj ▸ ht') ht
        | null =>
          constructor
          · intro hfalse; cases hfalse
          · rintro ⟨o, e', heq, _⟩
            injection heq with _ hbody _
            injection hbody with hdata
            cases hdata
        | bool b =>
          constructor
          · intro hfalse; cases hfalse
          · rintro ⟨o, e', heq, _⟩
            injection heq with _ hbody _
            injection hbody with hdata
            cases hdata
        | num i =>
          constructor
          · intro hfalse; cases hfalse
          · rintro ⟨o, e', heq, _⟩
            injection heq with _ hbody _
            injection hbody with hdata
            cases hdata
        | str s =>
          constructor
          · intro hfalse; cases hfalse
          · rintro ⟨o, e', heq, _⟩
            injection heq with _ hbody _
            injection hbody with hdata
            cases hdata
        | arr a =>
          constructor
          · intro hfalse; cases hfalse
          · rintro ⟨o, e', heq, _⟩
            injection heq with _ hbody _
            injection hbody with hdata
            cases hdata
    · rw [if_neg hst]
      constructor
      · intro hfalse; cases hfalse
      · rintro ⟨o, e', heq, _⟩
        injection heq with hs _ _
        exact absurd hs hst

/-- Claim C3 (amended): in the archived wizard, an SSID absent from the
last scan result is routed to `connect_hidden_wifi`, which first issues the
direct connect command with the `hidden yes` flag; when that command exits
nonzero it issues the profile-creation command, and then — unless creation
failed without an already-exists message — the bring-up command.  (The
active `connect_network` has no such fallback; see its counterexample.) -/
theorem hidden_fallback (exec : List Str → Nat → ExecOutcome)
    (networks : List Archive.WifiNetwork) (ssid password : Str)
    (hne : ssid ≠ []) (habsent : ∀ n ∈ networks, n.ssid ≠ ssid) :
    Archive.choosesHiddenPath networks ssid = true ∧
    (Archive.connect_hidden_wifi exec ssid password).2.head? =
      some (Archive.hiddenCmd ssid password) ∧
    ("hidden".data) ∈ Archive.hiddenCmd ssid password ∧
    ((Archive.runCmd (exec (Archive.hiddenCmd ssid password) 25)).1 = 0 →
      (Archive.connect_hidden_wifi exec ssid password).2 =
        [Archive.hiddenCmd ssid password]) ∧
    ((Archive.runCmd (exec (Archive.hiddenCmd ssid password) 25)).1 ≠ 0 →
      (Archive.connect_hidden_wifi exec ssid password).2 =
        (if ((Archive.runCmd (exec (Archive.addCmd ssid password) 15)).1 ≠ 0 &&
              !strContains
                (pyLower ((Archive.runCmd (exec (Archive.addCmd ssid password) 15)).2.1 ++
                  (Archive.runCmd (exec (Archive.addCmd ssid password) 15)).2.2))
                ("exists".data))
         then [Archive.hiddenCmd ssid password, Archive.addCmd ssid password]
         else [Archive.hiddenCmd ssid password, Archive.addCmd ssid password,
               Archive.upCmd ssid])) := by
  have hchoose : Archive.choosesHiddenPath networks ssid = true := by
    rw [Archive.choosesHiddenPath, Bool.and_eq_true]
    constructor
    · exact decide_eq_true hne
    · rw [List.all_eq_true]
      intro n hn
      exact decide_eq_true (habsent n hn)
  have hmem : ("hidden".data) ∈ Archive.hiddenCmd ssid password := by
    rw [Archive.hiddenCmd]
    exact List.mem_append_left _ (by simp)
  refine ⟨hchoose, ?_, hmem, ?_, ?_⟩
  · simp only [Archive.connect_hidden_wifi]
    rw [if_neg hne]
    by_cases h1 : (Archive.runCmd (exec (Archive.hiddenCmd ssid password) 25)).1 = 0
    · rw [if_pos h1]
      rfl
    · rw [if_neg h1]
      by_cases h2 : ((Archive.runCmd (exec (Archive.addCmd ssid password) 15)).1 ≠ 0 &&
          !strContains
            (pyLower ((Archive.runCmd (exec (Archive.addCmd ssid password) 15)).2.1 ++
              (Archive.runCmd (exec (Archive.addCmd ssid password) 15)).2.2))
            ("exists".data)) = true
      · rw [if_pos h2]
        rfl
      · rw [if_neg h2]
        by_cases h3 : (Archive.runCmd (exec (Archive.upCmd ssid) 20)).1 = 0
        · rw [if_pos h3]
          rfl
        · rw [if_neg h3]
          rfl
  · intro h1
    simp only [Archive.connect_hidden_wifi]
    rw [if_neg hne, if_pos h1]
  · intro h1
    simp only [Archive.connect_hidden_wifi]
    rw [if_neg hne, if_neg h1]
    by_cases h2 : ((Archive.runCmd (exec (Archive.addCmd ssid password) 15)).1 ≠ 0 &&
        !strContains
          (pyLower ((Archive.runCmd (exec (Archive.addCmd ssid password) 15)).2.1 ++
            (Archive.runCmd (exec (Archive.addCmd ssid password) 15)).2.2))
          ("exists".data)) = true
    · rw [if_pos h2, if_pos h2]
    · rw [if_neg h2, if_neg h2]
      by_cases h3 : (Archive.runCmd (exec (Archive.upCmd ssid) 20)).1 = 0
      · rw [if_pos h3]
      · rw [if_neg h3]

/-- Witness for the amended C3 with an environment in which both the direct
hidden connect and the profile creation fail, on a hidden SSID absent from
an empty scan. -/
theorem hidden_fallback_witness :
    (("hn".data) : Str) ≠ [] ∧
    (Archive.connect_hidden_wifi (fun _ _ => .completed 1 [] []) ("hn".data) []).2 =
      [Archive.hiddenCmd ("hn".data) [], Archive.addCmd ("hn".data) []] := by
  constructor
  · decide
  · have h := hidden_fallback (fun _ _ => .completed 1 [] []) [] ("hn".data) []
      (by decide) (by simp)
    have h5 := h.2.2.2.2 (by decide)
    exact h5.trans (by decide)

/-!
## Round trip of the JSON serializer and parser
-/

/-- The remaining input does not begin with a digit (so a parsed number
cannot run into it). -/
def headNotDigit (s : Str) : Prop := ∀ c, s.head? = some c → c.isDigit = false

/-- Unequal code points give unequal characters. -/
theorem char_ne_of_toNat_ne {a b : Char} (h : a.toNat ≠ b.toNat) : a ≠ b :=
  fun he => h (he ▸ rfl)

/-- A digit character's code point is between 48 and 57. -/
theorem isDigit_toNat {c : Char} (h : c.isDigit = true) :
    48 ≤ c.toNat ∧ c.toNat ≤ 57 := by
  simp [Char.isDigit] at h
  exact ⟨h.1, h.2⟩

/-- A character is not JSON whitespace when its code point is none of the
whitespace code points. -/
theorem jsonWs_eq_false {c : Char} (h1 : c.toNat ≠ 32) (h2 : c.toNat ≠ 9)
    (h3 : c.toNat ≠ 10) (h4 : c.toNat ≠ 13) : jsonWs c = false := by
  rw [jsonWs]
  simp only [Bool.or_eq_false_iff, decide_eq_false_iff_not]
  exact ⟨⟨⟨char_ne_of_toNat_ne h1, char_ne_of_toNat_ne h2⟩,
    char_ne_of_toNat_ne h3⟩, char_ne_of_toNat_ne h4⟩

/-- Skipping whitespace leaves a non-whitespace-headed input unchanged. -/
theorem skipWs_cons {c : Char} {t : Str} (h : jsonWs c = false) :
    skipWs (c :: t) = c :: t := by
  rw [skipWs, List.dropWhile_cons, h]
  rfl

/-- Skipping whitespace drops an all-whitespace prefix. -/
theorem skipWs_append_ws : ∀ (t s : Str), (∀ c ∈ t, jsonWs c = true) →
    skipWs (t ++ s) = skipWs s := by
  intro t
  induction t with
  | nil => intro s _; rfl
  | cons c ct ih =>
    intro s hall
    rw [List.cons_append, skipWs, List.dropWhile_cons,
      hall c (List.mem_cons_self _ _)]
    exact ih s (fun d hd => hall d (List.mem_cons_of_mem _ hd))

/-- The indentation prefix is all whitespace. -/
theorem indentChars_ws (n : Nat) : ∀ c ∈ indentChars n, jsonWs c = true := by
  intro c hc
  rw [indentChars] at hc
  rw [List.eq_of_mem_replicate hc]
  rfl

/-- Consuming an expected literal prefix succeeds on that prefix. -/
theorem expectChars_self : ∀ (p rest : Str), expectChars p (p ++ rest) = some rest := by
  intro p
  induction p with
  | nil => intro rest; rfl
  | cons c ct ih =>
    intro rest
    rw [List.cons_append, expectChars, if_pos rfl]
    exact ih rest

/-- Little-endian value of a digit-character string. -/
def valLE : Str → Nat
  | [] => 0
  | c :: r => (c.toNat - 48) + 10 * valLE r

/-- The most-significant-first fold used by `parseNat`. -/
def natFromDigits (l : Str) : Nat := l.foldl (fun acc c => acc * 10 + (c.toNat - 48)) 0

/-- `natDigitsAux` produces only digit characters. -/
theorem natDigitsAux_digits : ∀ (fuel n : Nat), ∀ c ∈ natDigitsAux fuel n,
    c.isDigit = true := by
  intro fuel
  induction fuel with
  | zero => intro n c hc; cases hc
  | succ f ih =>
    intro n c hc
    rw [natDigitsAux] at hc
    split at hc
    · cases hc
    · rcases List.mem_cons.mp hc with rfl | hc'
      · have hlt : n % 10 < 10 := Nat.mod_lt _ (by omega)
        interval_cases h : n % 10 <;> decide
      · exact ih _ c hc'

/-- Little-endian correctness of `natDigitsAux`. -/
theorem valLE_natDigitsAux : ∀ (fuel n : Nat), n ≤ fuel →
    valLE (natDigitsAux fuel n) = n := by
  intro fuel
  induction fuel with
  | zero => intro n h; interval_cases n; rfl
  | succ f ih =>
    intro n h
    rw [natDigitsAux]
    by_cases hn : n = 0
    · rw [if_pos hn, hn]; rfl
    · rw [if_neg hn, valLE]
      have hd : n % 10 < 10 := Nat.mod_lt _ (by omega)
      have hchar : (Char.ofNat (48 + n % 10)).toNat = 48 + n % 10 := by
        interval_cases h' : n % 10 <;> decide
      rw [hchar]
      have hrec : valLE (natDigitsAux f (n / 10)) = n / 10 :=
        ih (n / 10) (by omega)
      rw [hrec]
      omega

/-- Reversing a little-endian digit string gives the `foldl` value. -/
theorem natFromDigits_reverse : ∀ l : Str, natFromDigits l.reverse = valLE l := by
  intro l
  induction l with
  | nil => rfl
  | cons c r ih =>
    rw [List.reverse_cons, valLE, ← ih, natFromDigits, natFromDigits,
      List.foldl_append]
    simp
    ring

/-- `natToChars` is a nonempty all-digit string with the right value. -/
theorem natToChars_spec (n : Nat) :
    (∀ c ∈ natToChars n, c.isDigit = true) ∧ natToChars n ≠ [] ∧
      natFromDigits (natToChars n) = n := by
  rw [natToChars]
  by_cases hn : n = 0
  · rw [if_pos hn]
    exact ⟨by intro c hc; rcases List.mem_singleton.mp hc with rfl; decide,
      by decide, by rw [hn]; rfl⟩
  · rw [if_neg hn]
    refine ⟨?_, ?_, ?_⟩
    · intro c hc
      exact natDigitsAux_digits n n c (List.mem_reverse.mp hc)
    · intro hcontra
      have : natDigitsAux n n = [] := by
        have := congrArg List.reverse hcontra
        simpa using this
      have hv := valLE_natDigitsAux n n (Nat.le_refl n)
      rw [this] at hv
      exact hn (by simpa [valLE] using hv.symm)
    · rw [natFromDigits_reverse]
      exact valLE_natDigitsAux n n (Nat.le_refl n)

/-- `takeWhile` and `dropWhile` split an all-satisfying prefix followed by a
failing head exactly at the boundary. -/
theorem takeWhile_dropWhile_split (p : Char → Bool) :
    ∀ (l r : Str), (∀ c ∈ l, p c = true) → (∀ c, r.head? = some c → p c = false) →
      (l ++ r).takeWhile p = l ∧ (l ++ r).dropWhile p = r := by
  intro l
  induction l with
  | nil =>
    intro r _ hr
    cases r with
    | nil => exact ⟨rfl, rfl⟩
    | cons c t =>
      rw [List.nil_append, List.takeWhile_cons, List.dropWhile_cons,
        hr c rfl]
      exact ⟨rfl, rfl⟩
  | cons c ct ih =>
    intro r hl hr
    rw [List.cons_append, List.takeWhile_cons, List.dropWhile_cons,
      hl c (List.mem_cons_self _ _)]
    have := ih r (fun d hd => hl d (List.mem_cons_of_mem _ hd)) hr
    rw [this.1, this.2]
    exact ⟨rfl, rfl⟩

/-- `parseNat` reads back exactly the digits written by `natToChars`. -/
theorem parseNat_natToChars (n : Nat) (rest : Str) (hrest : headNotDigit rest) :
    parseNat (natToChars n ++ rest) = some (n, rest) := by
  obtain ⟨hdig, hne, hval⟩ := natToChars_spec n
  obtain ⟨htake, hdrop⟩ :=
    takeWhile_dropWhile_split Char.isDigit (natToChars n) rest hdig hrest
  rw [parseNat]
  simp only [htake, hdrop]
  rw [if_neg hne]
  rw [show (natToChars n).foldl (fun acc c => acc * 10 + (c.toNat - 48)) 0 =
      natFromDigits (natToChars n) from rfl, hval]

/-- Hexadecimal digit characters read back their value. -/
theorem hexVal_hexDigitChar (m : Nat) (h : m < 16) :
    hexVal (hexDigitChar m) = some m := by
  interval_cases m <;> decide


/-- One escaped character parses back to itself, spending one unit of
fuel. -/
theorem parseStrBodyF_escChar (fuel : Nat) (c : Char) (t : Str) :
    parseStrBodyF (fuel + 1) (escChar c ++ t) =
      (parseStrBodyF fuel t).map (fun p => (c :: p.1, p.2)) := by
  by_cases h1 : c = '"'
  · subst h1
    rw [show escChar '"' = ['\\', '"'] from rfl]
    rw [List.cons_append, List.cons_append, List.nil_append]
    rw [parseStrBodyF, if_neg (by decide), if_neg (by decide)]
    rw [show decodeEsc ('"' :: t) = some ('"', t) from rfl]
  · by_cases h2 : c = '\\'
    · subst h2
      rw [show escChar '\\' = ['\\', '\\'] from rfl]
      rw [List.cons_append, List.cons_append, List.nil_append]
      rw [parseStrBodyF, if_neg (by decide), if_neg (by decide)]
      rw [show decodeEsc ('\\' :: t) = some ('\\', t) from rfl]
    · by_cases h3 : c.toNat < 32
      · rw [show escChar c =
            '\\' :: 'u' :: '0' :: '0' :: hexDigitChar (c.toNat / 16) ::
              hexDigitChar (c.toNat % 16) :: [] from by
          rw [escChar, if_neg h1, if_neg h2, if_pos h3]]
        simp only [List.cons_append, List.nil_append]
        rw [parseStrBodyF, if_neg (by decide), if_neg (by decide)]
        have hdec : decodeEsc
            ('u' :: '0' :: '0' :: hexDigitChar (c.toNat / 16) ::
              hexDigitChar (c.toNat % 16) :: t) = some (c, t) := by
          rw [decodeEsc, if_pos rfl]
          rw [show hexVal '0' = some 0 from rfl]
          rw [hexVal_hexDigitChar (c.toNat / 16) (by omega),
            hexVal_hexDigitChar (c.toNat % 16) (by omega)]
          simp only [Option.some_bind, Option.map_some']
          have harith : 0 * 4096 + 0 * 256 + c.toNat / 16 * 16 + c.toNat % 16 =
              c.toNat := by omega
          rw [harith, Char.ofNat_toNat]
        rw [hdec]
      · rw [show escChar c = [c] from by
          rw [escChar, if_neg h1, if_neg h2, if_neg h3]]
        rw [List.cons_append, List.nil_append]
        rw [parseStrBodyF, if_neg h1, if_pos h2]

/-- The escaped body of a string followed by the closing quote parses back
to the body, with any fuel of at least one unit per character plus one. -/
theorem parseStrBodyF_esc : ∀ (s : Str) (rest : Str) (fuel : Nat),
    s.length + 1 ≤ fuel →
    parseStrBodyF fuel (escStr s ++ ('"' :: rest)) = some (s, rest) := by
  intro s
  induction s with
  | nil =>
    intro rest fuel hfuel
    cases fuel with
    | zero => omega
    | succ f =>
      rw [escStr, List.nil_append, parseStrBodyF, if_pos rfl]
  | cons c r ih =>
    intro rest fuel hfuel
    cases fuel with
    | zero => simp at hfuel
    | succ f =>
      rw [escStr, List.append_assoc, parseStrBodyF_escChar f c
        (escStr r ++ ('"' :: rest))]
      rw [ih rest f (by simp at hfuel; omega)]
      rfl

/-- Each character escapes to at least one character. -/
theorem escStr_length_ge : ∀ s : Str, s.length ≤ (escStr s).length := by
  intro s
  induction s with
  | nil => simp [escStr]
  | cons c r ih =>
    rw [escStr, List.length_append, List.length_cons]
    have : 1 ≤ (escChar c).length := by
      rw [escChar]
      split
      · simp
      · split
        · simp
        · split
          · simp
          · simp
    omega

/-- The escaped body of a string followed by the closing quote parses back
to the body. -/
theorem parseStrBody_esc (s rest : Str) :
    parseStrBody (escStr s ++ ('"' :: rest)) = some (s, rest) := by
  rw [parseStrBody]
  apply parseStrBodyF_esc
  rw [List.length_append, List.length_cons]
  have := escStr_length_ge s
  omega

/-- A digit character differs from any non-digit character. -/
theorem char_ne_of_isDigit {c : Char} (h : c.isDigit = true) (d : Char)
    (hd : d.isDigit = false) : c ≠ d := by
  intro he
  rw [he] at h
  rw [h] at hd
  cases hd

/-- A digit character is not JSON whitespace and differs from every token
lead of the grammar. -/
theorem digit_char_props {c : Char} (h : c.isDigit = true) :
    jsonWs c = false ∧
      ∀ d ∈ ['n', 't', 'f', '"', '[', '{', '-', ']', '}'], c ≠ d := by
  obtain ⟨hlo, hhi⟩ := isDigit_toNat h
  refine ⟨jsonWs_eq_false (by omega) (by omega) (by omega) (by omega), ?_⟩
  intro d hd
  fin_cases hd <;> exact char_ne_of_isDigit h _ (by decide)

/-- A serialized integer parses back, spending one unit of fuel. -/
theorem parseVal_num (fuel : Nat) (i : Int) (rest : Str)
    (hrest : headNotDigit rest) :
    parseVal (fuel + 1) (intToChars i ++ rest) = some (.num i, rest) := by
  by_cases hneg : i < 0
  · rw [intToChars, if_pos hneg, List.cons_append]
    rw [parseVal]
    rw [skipWs_cons (by decide)]
    dsimp only
    rw [if_neg (by decide), if_neg (by decide), if_neg (by decide),
      if_neg (by decide), if_neg (by decide), if_neg (by decide),
      if_pos rfl]
    rw [parseNat_natToChars i.natAbs rest hrest]
    rw [Option.map_some']
    have : -((i.natAbs : Nat) : Int) = i := by omega
    rw [this]
  · rw [intToChars, if_neg hneg]
    obtain ⟨hdig, hne, _⟩ := natToChars_spec i.toNat
    cases hnc : natToChars i.toNat with
    | nil => exact absurd hnc hne
    | cons c0 cs =>
      have hc0 : c0.isDigit = true := by
        apply hdig
        rw [hnc]
        exact List.mem_cons_self _ _
      obtain ⟨hws, hall⟩ := digit_char_props hc0
      rw [List.cons_append, parseVal, skipWs_cons hws]
      dsimp only
      rw [if_neg (hall 'n' (by decide)), if_neg (hall 't' (by decide)),
        if_neg (hall 'f' (by decide)), if_neg (hall '"' (by decide)),
        if_neg (hall '[' (by decide)), if_neg (hall '{' (by decide)),
        if_neg (hall '-' (by decide)), if_pos hc0]
      rw [show c0 :: (cs ++ rest) = (c0 :: cs) ++ rest from rfl, ← hnc]
      rw [parseNat_natToChars i.toNat rest hrest]
      rw [Option.map_some']
      have : ((i.toNat : Nat) : Int) = i := by omega
      rw [this]

/-- The first character of a serialized value: never whitespace, never a
closing bracket. -/
theorem serVal_head_spec (lvl : Nat) (v : JVal) :
    ∃ c t, serVal lvl v = c :: t ∧ jsonWs c = false ∧ c ≠ ']' := by
  cases v with
  | null => exact ⟨'n', _, rfl, rfl, by decide⟩
  | bool b =>
    cases b
    · exact ⟨'f', _, rfl, rfl, by decide⟩
    · exact ⟨'t', _, rfl, rfl, by decide⟩
  | num i =>
    by_cases hneg : i < 0
    · refine ⟨'-', natToChars i.natAbs, ?_, by decide, by decide⟩
      rw [serVal, intToChars, if_pos hneg]
    · obtain ⟨hdig, hne, _⟩ := natToChars_spec i.toNat
      cases hnc : natToChars i.toNat with
      | nil => exact absurd hnc hne
      | cons c0 cs =>
        have hc0 : c0.isDigit = true := by
          apply hdig
          rw [hnc]
          exact List.mem_cons_self _ _
        obtain ⟨hws, hall⟩ := digit_char_props hc0
        refine ⟨c0, cs, ?_, hws, hall ']' (by decide)⟩
        rw [serVal, intToChars, if_neg hneg, hnc]
  | str s => exact ⟨'"', _, rfl, rfl, by decide⟩
  | arr a =>
    cases a
    · exact ⟨'[', _, rfl, rfl, by decide⟩
    · exact ⟨'[', _, rfl, rfl, by decide⟩
  | obj o =>
    cases o
    · exact ⟨'{', _, rfl, rfl, by decide⟩
    · exact ⟨'{', _, rfl, rfl, by decide⟩

/-- The serialization after an array element begins with `,` or a newline:
never a digit. -/
theorem headNotDigit_serArrTail (lvl : Nat) (a : JArr) (rest : Str) :
    headNotDigit (serArrTail lvl a ++ rest) := by
  cases a with
  | nil =>
    intro c hc
    rw [serArrTail, List.cons_append] at hc
    rw [List.head?_cons, Option.some.injEq] at hc
    rw [← hc]
    decide
  | cons v tl =>
    intro c hc
    rw [serArrTail, List.cons_append] at hc
    rw [List.head?_cons, Option.some.injEq] at hc
    rw [← hc]
    decide

/-- The serialization after an object member begins with `,` or a newline:
never a digit. -/
theorem headNotDigit_serObjTail (lvl : Nat) (o : JObj) (rest : Str) :
    headNotDigit (serObjTail lvl o ++ rest) := by
  cases o with
  | nil =>
    intro c hc
    rw [serObjTail, List.cons_append] at hc
    rw [List.head?_cons, Option.some.injEq] at hc
    rw [← hc]
    decide
  | cons k v tl =>
    intro c hc
    rw [serObjTail, List.cons_append] at hc
    rw [List.head?_cons, Option.some.injEq] at hc
    rw [← hc]
    decide

/-- Skipping whitespace drops a whitespace head. -/
theorem skipWs_cons_ws {c : Char} (hc : jsonWs c = true) (s : Str) :
    skipWs (c :: s) = skipWs s := by
  rw [skipWs, List.dropWhile_cons, hc]
  rfl

/-- A newline plus indentation prefix is skipped. -/
theorem skipWs_newline_indent (n : Nat) (X : Str) :
    skipWs ('\n' :: (indentChars n ++ X)) = skipWs X := by
  rw [skipWs_cons_ws (by decide)]
  exact skipWs_append_ws (indentChars n) X (indentChars_ws n)

/-- A serialized value is not whitespace-headed. -/
theorem skipWs_serVal (lvl : Nat) (v : JVal) (R : Str) :
    skipWs (serVal lvl v ++ R) = serVal lvl v ++ R := by
  obtain ⟨c, t, hsv, hws, _⟩ := serVal_head_spec lvl v
  rw [hsv, List.cons_append, skipWs_cons hws]

/-- A serialized value does not begin with a closing bracket. -/
theorem serVal_append_head_ne (lvl : Nat) (v : JVal) (R : Str) :
    ¬ (serVal lvl v ++ R).head? = some ']' := by
  obtain ⟨c, t, hsv, _, hrb⟩ := serVal_head_spec lvl v
  rw [hsv, List.cons_append, List.head?_cons]
  intro hcontra
  exact hrb (Option.some.inj hcontra)

/-- `parseVal` ignores a leading whitespace character. -/
theorem parseVal_cons_ws (fuel : Nat) {c : Char} (hc : jsonWs c = true) (s : Str) :
    parseVal fuel (c :: s) = parseVal fuel s := by
  cases fuel with
  | zero => rfl
  | succ f => rw [parseVal, parseVal, skipWs_cons_ws hc]

/-- `parseVal` ignores a leading newline plus indentation. -/
theorem parseVal_newline_indent (fuel n : Nat) (X : Str) :
    parseVal fuel ('\n' :: (indentChars n ++ X)) = parseVal fuel X := by
  cases fuel with
  | zero => rfl
  | succ f => rw [parseVal, parseVal, skipWs_newline_indent]

/-- The serialization of an integer is nonempty. -/
theorem intToChars_ne_nil (i : Int) : intToChars i ≠ [] := by
  rw [intToChars]
  split
  · simp
  · exact (natToChars_spec i.toNat).2.1

mutual

/-- A serialized value parses back to itself whenever the fuel covers the
input length and the remaining input cannot extend a number. -/
theorem rt_val : ∀ (v : JVal) (fuel lvl : Nat) (rest : Str),
    (serVal lvl v ++ rest).length ≤ fuel → headNotDigit rest →
    parseVal fuel (serVal lvl v ++ rest) = some (v, rest)
  | .null, fuel, lvl, rest => by
    intro hlen hrest
    rw [show serVal lvl JVal.null = ['n', 'u', 'l', 'l'] from rfl] at hlen ⊢
    simp only [List.cons_append, List.nil_append] at hlen ⊢
    cases fuel with
    | zero => simp at hlen
    | succ f =>
      rw [parseVal, skipWs_cons (by decide)]
      dsimp only
      rw [if_pos rfl]
      rw [show ('u' :: 'l' :: 'l' :: rest) = ['u', 'l', 'l'] ++ rest from rfl]
      rw [expectChars_self]
      rfl
  | .bool true, fuel, lvl, rest => by
    intro hlen hrest
    rw [show serVal lvl (JVal.bool true) = ['t', 'r', 'u', 'e'] from rfl] at hlen ⊢
    simp only [List.cons_append, List.nil_append] at hlen ⊢
    cases fuel with
    | zero => simp at hlen
    | succ f =>
      rw [parseVal, skipWs_cons (by decide)]
      dsimp only
      rw [if_neg (by decide), if_pos rfl]
      rw [show ('r' :: 'u' :: 'e' :: rest) = ['r', 'u', 'e'] ++ rest from rfl]
      rw [expectChars_self]
      rfl
  | .bool false, fuel, lvl, rest => by
    intro hlen hrest
    rw [show serVal lvl (JVal.bool false) = ['f', 'a', 'l', 's', 'e'] from rfl] at hlen ⊢
    simp only [List.cons_append, List.nil_append] at hlen ⊢
    cases fuel with
    | zero => simp at hlen
    | succ f =>
      rw [parseVal, skipWs_cons (by decide)]
      dsimp only
      rw [if_neg (by decide), if_neg (by decide), if_pos rfl]
      rw [show ('a' :: 'l' :: 's' :: 'e' :: rest) = ['a', 'l', 's', 'e'] ++ rest from rfl]
      rw [expectChars_self]
      rfl
  | .num i, fuel, lvl, rest => by
    intro hlen hrest
    rw [show serVal lvl (JVal.num i) = intToChars i from rfl] at hlen ⊢
    cases fuel with
    | zero =>
      exfalso
      cases hnc : intToChars i with
      | nil => exact intToChars_ne_nil i hnc
      | cons c cs => rw [hnc] at hlen; simp at hlen
    | succ f => exact parseVal_num f i rest hrest
  | .str s, fuel, lvl, rest => by
    intro hlen hrest
    rw [show serVal lvl (JVal.str s) = '"' :: (escStr s ++ ['"']) from rfl] at hlen ⊢
    simp only [List.cons_append, List.append_assoc, List.nil_append] at hlen ⊢
    cases fuel with
    | zero => simp at hlen
    | succ f =>
      rw [parseVal, skipWs_cons (by decide)]
      dsimp only
      rw [if_neg (by decide), if_neg (by decide), if_neg (by decide), if_pos rfl]
      rw [parseStrBody_esc]
      rfl
  | .arr .nil, fuel, lvl, rest => by
    intro hlen hrest
    rw [show serVal lvl (JVal.arr JArr.nil) = ['[', ']'] from rfl] at hlen ⊢
    simp only [List.cons_append, List.nil_append] at hlen ⊢
    cases fuel with
    | zero => simp at hlen
    | succ f =>
      rw [parseVal, skipWs_cons (by decide)]
      dsimp only
      rw [if_neg (by decide), if_neg (by decide), if_neg (by decide),
        if_neg (by decide), if_pos rfl]
      rw [skipWs_cons (by decide), List.head?_cons, if_pos rfl, List.tail_cons]
  | .arr (.cons v tl), fuel, lvl, rest => by
    intro hlen hrest
    rw [show serVal lvl (JVal.arr (JArr.cons v tl)) =
        '[' :: '\n' :: (indentChars (lvl + 1) ++ serVal (lvl + 1) v ++
          serArrTail lvl tl) from rfl] at hlen ⊢
    simp only [List.cons_append, List.append_assoc] at hlen ⊢
    cases fuel with
    | zero => simp at hlen
    | succ f =>
      rw [parseVal, skipWs_cons (by decide)]
      dsimp only
      rw [if_neg (by decide), if_neg (by decide), if_neg (by decide),
        if_neg (by decide), if_pos rfl]
      rw [show skipWs ('\n' :: (indentChars (lvl + 1) ++
          (serVal (lvl + 1) v ++ (serArrTail lvl tl ++ rest)))) =
            serVal (lvl + 1) v ++ (serArrTail lvl tl ++ rest) from by
        rw [skipWs_newline_indent, skipWs_serVal]]
      rw [if_neg (serVal_append_head_ne (lvl + 1) v _)]
      rw [rt_val v f (lvl + 1) (serArrTail lvl tl ++ rest)
        (by
          simp only [List.length_cons, List.length_append] at hlen ⊢
          omega)
        (headNotDigit_serArrTail lvl tl rest)]
      dsimp only
      rw [rt_arrTail tl f lvl rest
        (by
          simp only [List.length_cons, List.length_append] at hlen ⊢
          omega)]
  | .obj .nil, fuel, lvl, rest => by
    intro hlen hrest
    rw [show serVal lvl (JVal.obj JObj.nil) = ['{', '}'] from rfl] at hlen ⊢
    simp only [List.cons_append, List.nil_append] at hlen ⊢
    cases fuel with
    | zero => simp at hlen
    | succ f =>
      rw [parseVal, skipWs_cons (by decide)]
      dsimp only
      rw [if_neg (by decide), if_neg (by decide), if_neg (by decide),
        if_neg (by decide), if_neg (by decide), if_pos rfl]
      rw [skipWs_cons (by decide), List.head?_cons, if_pos rfl, List.tail_cons]
  | .obj (.cons k v tl), fuel, lvl, rest => by
    intro hlen hrest
    rw [show serVal lvl (JVal.obj (JObj.cons k v tl)) =
        '{' :: '\n' :: (indentChars (lvl + 1) ++
          ('"' :: (escStr k ++ '"' :: ':' :: ' ' :: serVal (lvl + 1) v)) ++
          serObjTail lvl tl) from rfl] at hlen ⊢
    simp only [List.cons_append, List.append_assoc] at hlen ⊢
    cases fuel with
    | zero => simp at hlen
    | succ f =>
      rw [parseVal, skipWs_cons (by decide)]
      dsimp only
      rw [if_neg (by decide), if_neg (by decide), if_neg (by decide),
        if_neg (by decide), if_neg (by decide), if_pos rfl]
      rw [skipWs_newline_indent]
      rw [skipWs_cons (by decide)]
      rw [List.head?_cons, if_neg (by decide), if_pos rfl, List.tail_cons]
      rw [parseStrBody_esc]
      dsimp only
      rw [skipWs_cons (by decide), List.head?_cons, if_pos rfl, List.tail_cons]
      rw [parseVal_cons_ws f (by decide)]
      rw [rt_val v f (lvl + 1) (serObjTail lvl tl ++ rest)
        (by
          simp only [List.length_cons, List.length_append] at hlen ⊢
          omega)
        (headNotDigit_serObjTail lvl tl rest)]
      dsimp only
      rw [rt_objTail tl f lvl rest
        (by
          simp only [List.length_cons, List.length_append] at hlen ⊢
          omega)]
  termination_by v => sizeOf v

/-- The serialized tail of an array parses back to its elements. -/
theorem rt_arrTail : ∀ (a : JArr) (fuel lvl : Nat) (rest : Str),
    (serArrTail lvl a ++ rest).length ≤ fuel →
    parseArrTail fuel (serArrTail lvl a ++ rest) = some (a, rest)
  | .nil, fuel, lvl, rest => by
    intro hlen
    rw [show serArrTail lvl JArr.nil = '\n' :: (indentChars lvl ++ [']']) from rfl] at hlen ⊢
    simp only [List.cons_append, List.append_assoc, List.nil_append] at hlen ⊢
    cases fuel with
    | zero => simp at hlen
    | succ f =>
      rw [parseArrTail, skipWs_newline_indent, skipWs_cons (by decide)]
      dsimp only
      rw [if_pos rfl]
  | .cons v tl, fuel, lvl, rest => by
    intro hlen
    rw [show serArrTail lvl (JArr.cons v tl) =
        ',' :: '\n' :: (indentChars (lvl + 1) ++ serVal (lvl + 1) v ++
          serArrTail lvl tl) from rfl] at hlen ⊢
    simp only [List.cons_append, List.append_assoc] at hlen ⊢
    cases fuel with
    | zero => simp at hlen
    | succ f =>
      rw [parseArrTail, skipWs_cons (by decide)]
      dsimp only
      rw [if_neg (by decide), if_pos rfl]
      rw [parseVal_newline_indent]
      rw [rt_val v f (lvl + 1) (serArrTail lvl tl ++ rest)
        (by
          simp only [List.length_cons, List.length_append] at hlen ⊢
          omega)
        (headNotDigit_serArrTail lvl tl rest)]
      dsimp only
      rw [rt_arrTail tl f lvl rest
        (by
          simp only [List.length_cons, List.length_append] at hlen ⊢
          omega)]
  termination_by a => sizeOf a

/-- The serialized tail of an object parses back to its members. -/
theorem rt_objTail : ∀ (o : JObj) (fuel lvl : Nat) (rest : Str),
    (serObjTail lvl o ++ rest).length ≤ fuel →
    parseObjTail fuel (serObjTail lvl o ++ rest) = some (o, rest)
  | .nil, fuel, lvl, rest => by
    intro hlen
    rw [show serObjTail lvl JObj.nil = '\n' :: (indentChars lvl ++ ['}']) from rfl] at hlen ⊢
    simp only [List.cons_append, List.append_assoc, List.nil_append] at hlen ⊢
    cases fuel with
    | zero => simp at hlen
    | succ f =>
      rw [parseObjTail, skipWs_newline_indent, skipWs_cons (by decide)]
      dsimp only
      rw [if_pos rfl]
  | .cons k v tl, fuel, lvl, rest => by
    intro hlen
    rw [show serObjTail lvl (JObj.cons k v tl) =
        ',' :: '\n' :: (indentChars (lvl + 1) ++
          ('"' :: (escStr k ++ '"' :: ':' :: ' ' :: serVal (lvl + 1) v)) ++
          serObjTail lvl tl) from rfl] at hlen ⊢
    simp only [List.cons_append, List.append_assoc] at hlen ⊢
    cases fuel with
    | zero => simp at hlen
    | succ f =>
      rw [parseObjTail, skipWs_cons (by decide)]
      dsimp only
      rw [if_neg (by decide), if_pos rfl]
      rw [skipWs_newline_indent]
      rw [skipWs_cons (by decide)]
      rw [List.head?_cons, if_pos rfl, List.tail_cons]
      rw [parseStrBody_esc]
      dsimp only
      rw [skipWs_cons (by decide), List.head?_cons, if_pos rfl, List.tail_cons]
      rw [parseVal_cons_ws f (by decide)]
      rw [rt_val v f (lvl + 1) (serObjTail lvl tl ++ rest)
        (by
          simp only [List.length_cons, List.length_append] at hlen ⊢
          omega)
        (headNotDigit_serObjTail lvl tl rest)]
      dsimp only
      rw [rt_objTail tl f lvl rest
        (by
          simp only [List.length_cons, List.length_append] at hlen ⊢
          omega)]
  termination_by o => sizeOf o

end

/-- A dumped JSON value parses back to itself. -/
theorem jsonLoads_jsonDumps (v : JVal) : jsonLoads (jsonDumps v) = some v := by
  rw [jsonLoads, jsonDumps]
  have h := rt_val v ((serVal 0 v).length + 1) 0 []
    (by rw [List.append_nil]; omega)
    (by intro c hc; cases hc)
  rw [List.append_nil] at h
  rw [h]
  rfl

/-- Claim C5: persisting a mapping with the state store's `save` and
reading it back with `load` reproduces the original mapping, for every
mapping of the modelled JSON universe (integers for numbers, scalar-value
strings). -/
theorem load_state_save_state (m : JObj) :
    StateStore.load_state (StateStore.save_state m) = JVal.obj m := by
  rw [StateStore.save_state, StateStore.load_state, jsonLoads_jsonDumps]
  rfl

/-- Claim C10: a missing state file yields the empty mapping; an existing
file with parsable JSON yields exactly the parsed value, whatever its
shape (an array or string is returned as is, not coerced to a mapping);
an existing file with unparsable content yields the empty mapping. -/
theorem load_state_characterization :
    StateStore.load_state none = JVal.obj JObj.nil ∧
    (∀ (s : Str) (v : JVal), jsonLoads s = some v →
      StateStore.load_state (some s) = v) ∧
    (∀ s : Str, jsonLoads s = none →
      StateStore.load_state (some s) = JVal.obj JObj.nil) := by
  refine ⟨rfl, ?_, ?_⟩
  · intro s v h
    rw [StateStore.load_state, h]
    rfl
  · intro s h
    rw [StateStore.load_state, h]
    rfl

/-- Witness for C10: the state file containing the JSON array `[4, 7]` is
returned as that array, not a mapping; the unparsable file `oops` gives the
empty mapping. -/
theorem load_state_characterization_witness :
    jsonLoads (("[4, 7]").data) =
      some (JVal.arr (JArr.cons (JVal.num 4) (JArr.cons (JVal.num 7) JArr.nil))) ∧
    StateStore.load_state (some (("[4, 7]").data)) =
      JVal.arr (JArr.cons (JVal.num 4) (JArr.cons (JVal.num 7) JArr.nil)) ∧
    jsonLoads (("oops").data) = none ∧
    StateStore.load_state (some (("oops").data)) = JVal.obj JObj.nil :=
  ⟨rfl,
   load_state_characterization.2.1 (("[4, 7]").data)
     (JVal.arr (JArr.cons (JVal.num 4) (JArr.cons (JVal.num 7) JArr.nil))) rfl,
   rfl,
   load_state_characterization.2.2 (("oops").data) rfl⟩
